import Mathlib

/-!
# Verification of the remote-config synchronization and caching layer

This file gives a shallow embedding of `src/services/github.ts` (the remote
config client, the hand-written YAML-subset decoder, the record normalizer,
and the TTL cache) and proves/refutes the specification claims about it.

Modelling conventions:
* JavaScript runtime values decoded from JSON/YAML are the inductive `JVal`.
  A missing property (JS `undefined`) is `Option.none` at use sites.
* JS numbers: every number reaching this code is produced by `parseFloat` /
  `JSON.parse` on decimal literals and is only ever compared, stored or
  stringified — never used arithmetically.  We model them exactly as
  canonical decimal fractions `Dec` (mantissa / 10 ^ exp, mantissa not
  divisible by 10 unless exp = 0), which is the image of such literals up to
  double rounding.
* Exceptions (`throw new Error`) are `Except Err`; `Err` carries the data of
  each thrown message and `errMessage` reproduces the exact message strings.
* Strings are processed as `List Char` (JS strings are sequences of code
  units; the inputs of interest are plain text).
-/

/-- JS whitespace removed by `String.prototype.trim` (and skipped by
`JSON.parse`): space, tab, CR, LF, FF, VT. -/
def isWsChar (c : Char) : Bool :=
  c = ' ' || c = '\t' || c = '\r' || c = '\n' || c = '\x0b' || c = '\x0c'

/-- `String.prototype.trim` on a list of chars. -/
def trimC (l : List Char) : List Char :=
  ((l.dropWhile isWsChar).reverse.dropWhile isWsChar).reverse

/-- `String.prototype.split(sep)` for a one-character separator: the list of
(possibly empty) chunks between occurrences of `c`.  Always nonempty, like
the JS result. -/
def splitOnChar (c : Char) : List Char → List (List Char)
  | [] => [[]]
  | x :: xs =>
    match splitOnChar c xs with
    | [] => [[x]]
    | h :: t => if x = c then [] :: h :: t else (x :: h) :: t

/-- `Array.prototype.join(sep)` for one-character separators on chunks. -/
def joinWith (c : Char) : List (List Char) → List Char
  | [] => []
  | [x] => x
  | x :: y :: t => x ++ c :: joinWith c (y :: t)

/-- A canonical decimal fraction `man / 10 ^ exp` — the exact value of a JS
number produced from a decimal literal.  Canonical form: `exp = 0` or the
mantissa is not divisible by 10, so two `Dec`s are equal as rationals iff
they are structurally equal. -/
structure Dec where
  man : Int
  exp : Nat
deriving DecidableEq, Repr

/-- Strip factors of ten: canonicalize `m / 10 ^ e`. -/
def Dec.norm : Int → Nat → Dec
  | m, 0 => ⟨m, 0⟩
  | m, e + 1 => if m % 10 = 0 then Dec.norm (m / 10) e else ⟨m, e + 1⟩

/-- The rational value of a `Dec` (specification-side only). -/
def Dec.val (d : Dec) : ℚ := (d.man : ℚ) / 10 ^ d.exp

/-- Decoded JS values (the results of `JSON.parse` / the YAML decoder). -/
inductive JVal where
  | null : JVal
  | bool : Bool → JVal
  | num : Dec → JVal
  | str : String → JVal
  | arr : List JVal → JVal
  | obj : List (String × JVal) → JVal

/-- JS object assignment `o[k] = v`: update in place when the key exists
(keeping first-insertion order, as JS objects do), else append. -/
def setKey (fs : List (String × JVal)) (k : String) (v : JVal) :
    List (String × JVal) :=
  if fs.any (fun p => p.1 = k) then
    fs.map (fun p => if p.1 = k then (k, v) else p)
  else fs ++ [(k, v)]

/-- JS property read `o.k` on a non-null value: `none` is `undefined`
(missing key, or any primitive/array receiver — prototype lookups are not
modelled, none are hit by this code). -/
def getProp : JVal → String → Option JVal
  | .obj fs, k => (fs.find? (fun p => p.1 = k)).map (fun p => p.2)
  | _, _ => none

/-- Errors thrown by the service (`throw new Error(...)` and native JS
errors). -/
inductive Err where
  | configNotFound : String → Err
  | invalidCredential : Err
  | rateLimitedOrDenied : Err
  | transportError : Nat → Err
  | malformedConfig : Err
  | typeError : Err
  | syntaxError : Err
deriving DecidableEq, Repr

/-- JS property read `o.k` where the receiver may be `null`: reading a
property of `null` throws a `TypeError`. -/
def getPropE (v : JVal) (k : String) : Except Err (Option JVal) :=
  match v with
  | .null => .error .typeError
  | v => .ok (getProp v k)

/-- JS truthiness of a decoded value (`undefined` handled at use sites). -/
def truthy : JVal → Bool
  | .null => false
  | .bool b => b
  | .num d => d.man ≠ 0
  | .str s => s ≠ ""
  | .arr _ => true
  | .obj _ => true

/-- Truthiness of a possibly-`undefined` value. -/
def truthyO : Option JVal → Bool
  | some v => truthy v
  | none => false

/-- Little-endian base-10 digits of `n` (first argument is fuel, kept equal
to `n` so the definition is structurally recursive and kernel-reducible). -/
def natDigitsRev : Nat → Nat → List Nat
  | 0, _ => []
  | _ + 1, 0 => []
  | f + 1, n + 1 => ((n + 1) % 10) :: natDigitsRev f ((n + 1) / 10)

def digitChar (d : Nat) : Char := Char.ofNat (48 + d)

/-- Decimal rendering of a natural number ("0" for 0, no leading zeros). -/
def renderNat (n : Nat) : List Char :=
  if n = 0 then ['0'] else ((natDigitsRev n n).map digitChar).reverse

/-- Decimal rendering of `n` left-padded with zeros to width `w` (the
fractional block of a decimal). -/
def renderNatPad (w n : Nat) : List Char :=
  let ds := renderNat n
  List.replicate (w - ds.length) '0' ++ ds

/-- Decimal rendering of an integer. -/
def renderInt (i : Int) : List Char :=
  if i < 0 then '-' :: renderNat i.natAbs else renderNat i.natAbs

/-- `String(n)` for a JS number held as a canonical decimal: integer part,
and for `exp > 0` a point followed by the zero-padded fractional block. -/
def renderDec (d : Dec) : List Char :=
  if d.exp = 0 then renderInt d.man
  else
    (if d.man < 0 then ['-'] else []) ++
      renderNat (d.man.natAbs / 10 ^ d.exp) ++
      '.' :: renderNatPad d.exp (d.man.natAbs % 10 ^ d.exp)

def natStr (n : Nat) : String := ⟨renderNat n⟩

mutual

/-- JS `String(v)` coercion: `Array.prototype.toString` joins element
strings with commas, rendering `null` (and `undefined`) elements as empty;
plain objects render as "[object Object]". -/
def jsToString : JVal → String
  | .null => "null"
  | .bool b => if b then "true" else "false"
  | .num d => ⟨renderDec d⟩
  | .str s => s
  | .arr xs => ⟨jsArrJoin xs⟩
  | .obj _ => "[object Object]"

/-- `Array.prototype.join(",")`: element strings separated by commas, with
`null` elements contributing the empty string. -/
def jsArrJoin : List JVal → List Char
  | [] => []
  | [.null] => []
  | [v] => (jsToString v).data
  | .null :: w :: t => ',' :: jsArrJoin (w :: t)
  | v :: w :: t => (jsToString v).data ++ ',' :: jsArrJoin (w :: t)

end

/-- Is every char a decimal digit? -/
def allDigits (l : List Char) : Bool := l.all (fun c => c.isDigit)

/-- Numeric value of a digit char. -/
def digVal (c : Char) : Nat := c.toNat - 48

/-- Value of a nonempty digit run, most significant first. -/
def digitsVal (l : List Char) : Nat := l.foldl (fun a c => a * 10 + digVal c) 0

/-- The test `/^-?\d+(\.\d+)?$/.test(value)` of `parseYamlValue`
(github.ts:253): optional minus, a nonempty digit run, optionally a dot and
a second nonempty digit run.  Returns the sign and the two runs when the
pattern matches. -/
def matchNumLit (l : List Char) : Option (Bool × List Char × List Char) :=
  let (neg, rest) := match l with
    | '-' :: r => (true, r)
    | r => (false, r)
  let intPart := rest.takeWhile (fun c => c.isDigit)
  let rest' := rest.drop intPart.length
  if intPart.isEmpty then none
  else match rest' with
    | [] => some (neg, intPart, [])
    | '.' :: fr => if !fr.isEmpty && allDigits fr then some (neg, intPart, fr) else none
    | _ => none

/-- The exact value `parseFloat` gives to a matched decimal literal, as a
canonical decimal. -/
def decOfLit (neg : Bool) (intPart frac : List Char) : Dec :=
  let base : Int := (digitsVal intPart * 10 ^ frac.length + digitsVal frac : Nat)
  Dec.norm (if neg then -base else base) frac.length

/-- `parseYamlValue` (github.ts:243-265): empty → empty string; strip
matching single/double quotes; decimal literals → numbers; `true`/`false`;
`null`/`~` → null; anything else stays a string. -/
def parseYamlValue (l : List Char) : JVal :=
  if l.isEmpty then .str ""
  else if l.length ≥ 1 &&
      ((l.head? = some '"' && l.getLast? = some '"') ||
       (l.head? = some '\'' && l.getLast? = some '\'')) then
    .str ⟨(l.drop 1).dropLast⟩
  else
    match matchNumLit l with
    | some (neg, ip, fp) => .num (decOfLit neg ip fp)
    | none =>
      if l = "true".data then .bool true
      else if l = "false".data then .bool false
      else if l = "null".data || l = "~".data then .null
      else .str ⟨l⟩

/-- The mutable locals of the `parseYaml` line loop (github.ts:166-169). -/
structure YState where
  result : List JVal
  curObj : Option (List (String × JVal))
  curNested : Option (List (String × JVal))
  curNestedKey : Option String

/-- Flush a pending nested mapping into its parent record, exactly when both
trackers are set and the nested mapping is nonempty
(`Object.keys(currentNested).length > 0`). -/
def attachNested (o : List (String × JVal)) :
    Option (List (String × JVal)) → Option String → List (String × JVal)
  | some n, some k => if n.isEmpty then o else setKey o k (.obj n)
  | _, _ => o

/-- The fields a fresh record starts with on a dash line (github.ts:189-196):
the inline `key: value` remainder after the dash marker, if it parses (the
remainder nonempty, its first `:`-chunk nonempty, and a `:` present), else
no fields.  `t` is the trimmed line. -/
def dashInline (t : List Char) : List (String × JVal) :=
  let afterDash := trimC (t.drop 2)
  if afterDash.isEmpty then []
  else
    match splitOnChar ':' afterDash with
    | [] => []
    | key :: valueParts =>
      if !key.isEmpty && !valueParts.isEmpty then
        setKey [] ⟨trimC key⟩ (parseYamlValue (trimC (joinWith ':' valueParts)))
      else []

/-- One iteration of the `parseYaml` loop (github.ts:171-230) on one line. -/
def yamlStep (st : YState) (line : List Char) : YState :=
  let t := trimC line
  if t.isEmpty || ['#'].isPrefixOf t then st
  else if ['-', ' '].isPrefixOf t then
    -- new array item (github.ts:178-198)
    let result' := match st.curObj with
      | some o => st.result ++ [JVal.obj (attachNested o st.curNested st.curNestedKey)]
      | none => st.result
    ⟨result', some (dashInline t), none, none⟩
  else
    match st.curObj with
    | none => st
    | some o =>
      if t.any (fun c => c = ':') then
        -- nested property (github.ts:201-229); key/value split at the first colon
        let key := trimC (t.takeWhile (fun c => c ≠ ':'))
        let value := trimC ((t.dropWhile (fun c => c ≠ ':')).drop 1)
        if (key = "metrics".data || key = "files".data) && value.isEmpty then
          ⟨st.result, some (attachNested o st.curNested st.curNestedKey),
            some [], some ⟨key⟩⟩
        else if st.curNested.isSome && st.curNestedKey.isSome &&
            (("      ".data.isPrefixOf line) || ("    ".data.isPrefixOf line)) then
          ⟨st.result, some o,
            some (setKey (st.curNested.getD []) ⟨key⟩ (parseYamlValue value)),
            st.curNestedKey⟩
        else
          -- flush a pending (nonempty) nested object, then set the top-level key;
          -- an empty pending nested mapping is kept active (github.ts:220-228)
          let flush := st.curNested.isSome && st.curNestedKey.isSome &&
            !(st.curNested.getD []).isEmpty
          let o' := if flush then attachNested o st.curNested st.curNestedKey else o
          ⟨st.result, some (setKey o' ⟨key⟩ (parseYamlValue value)),
            if flush then none else st.curNested,
            if flush then none else st.curNestedKey⟩
      else st

/-- Push the final record, if any (github.ts:233-238). -/
def yamlFinish (st : YState) : List JVal :=
  match st.curObj with
  | some o => st.result ++ [JVal.obj (attachNested o st.curNested st.curNestedKey)]
  | none => st.result

/-- `parseYaml` (github.ts:164-241) on a pre-split list of lines. -/
def parseYamlLines (lines : List (List Char)) : List JVal :=
  yamlFinish (lines.foldl yamlStep ⟨[], none, none, none⟩)

/-- `parseYaml` (github.ts:164-241): split on newlines and run the loop;
the result is always an array of records. -/
def parseYaml (content : String) : JVal :=
  .arr (parseYamlLines (splitOnChar '\n' content.data))

/-- JSON whitespace (`JSON.parse` skips exactly space, tab, LF, CR). -/
def isJWs (c : Char) : Bool :=
  c = ' ' || c = '\t' || c = '\n' || c = '\r'

def skipJWs (l : List Char) : List Char :=
  l.dropWhile isJWs

/-- Value of a hex digit char, if any. -/
def hexVal (c : Char) : Option Nat :=
  if c.isDigit then some (c.toNat - 48)
  else if 'a' ≤ c && c ≤ 'f' then some (c.toNat - 87)
  else if 'A' ≤ c && c ≤ 'F' then some (c.toNat - 55)
  else none

/-- The character denoted by a JSON short escape `\e`, if `e` is one. -/
def escUnmap (e : Char) : Option Char :=
  if e = '"' then some '"'
  else if e = '\\' then some '\\'
  else if e = '/' then some '/'
  else if e = 'b' then some '\x08'
  else if e = 'f' then some '\x0c'
  else if e = 'n' then some '\n'
  else if e = 'r' then some '\r'
  else if e = 't' then some '\t'
  else none

mutual

/-- JSON string body parser (after the opening quote): returns the decoded
characters and the input following the closing quote.  Raw control
characters are rejected, escapes are decoded.  (Unpaired surrogates from
`\u` escapes are outside the model — the code never produces them.) -/
def parseStr : List Char → Except Err (List Char × List Char)
  | [] => .error .syntaxError
  | c :: cs =>
    if c = '"' then .ok ([], cs)
    else if c = '\\' then parseEsc cs
    else if c.toNat < 32 then .error .syntaxError
    else
      match parseStr cs with
      | .ok (s, r) => .ok (c :: s, r)
      | .error err => .error err

/-- The text after a backslash inside a JSON string: a `\uXXXX` escape or a
short escape. -/
def parseEsc : List Char → Except Err (List Char × List Char)
  | [] => .error .syntaxError
  | e :: cs =>
    if e = 'u' then parseU cs
    else
      match escUnmap e with
      | some ch =>
        (match parseStr cs with
         | .ok (s, r) => .ok (ch :: s, r)
         | .error err => .error err)
      | none => .error .syntaxError

/-- The four hex digits of a `\uXXXX` escape. -/
def parseU : List Char → Except Err (List Char × List Char)
  | a :: b :: c :: d :: rest =>
    (match hexVal a, hexVal b, hexVal c, hexVal d with
     | some x, some y, some z, some w =>
       match parseStr rest with
       | .ok (s, r) =>
         .ok (Char.ofNat (((x * 16 + y) * 16 + z) * 16 + w) :: s, r)
       | .error err => .error err
     | _, _, _, _ => .error .syntaxError)
  | _ => .error .syntaxError

end

/-- Exact value of a JSON number from its parts: sign, integer digits,
fraction digits, exponent sign and digits. -/
def mkDecNum (neg : Bool) (ip fp : List Char) (esign : Bool) (ed : List Char) :
    Dec :=
  let base : Int := (digitsVal ip * 10 ^ fp.length + digitsVal fp : Nat)
  let base := if neg then -base else base
  let e : Int := if esign then -(digitsVal ed : Int) else (digitsVal ed : Int)
  let t : Int := (fp.length : Int) - e
  if t ≤ 0 then ⟨base * 10 ^ (-t).toNat, 0⟩ else Dec.norm base t.toNat

/-- Exponent-digits part of a JSON number (after `e`/`E`). -/
def parseExpDigits (neg : Bool) (ip fp r : List Char) :
    Except Err (Dec × List Char) :=
  let sr : Bool × List Char :=
    match r with
    | c :: t =>
      if c = '+' then (false, t) else if c = '-' then (true, t) else (false, r)
    | [] => (false, r)
  let ed := sr.2.takeWhile (fun c => c.isDigit)
  if ed.isEmpty then .error .syntaxError
  else .ok (mkDecNum neg ip fp sr.1 ed, sr.2.drop ed.length)

/-- Optional exponent part of a JSON number. -/
def parseExpPart (neg : Bool) (ip fp r : List Char) :
    Except Err (Dec × List Char) :=
  match r with
  | c :: rr =>
    if c = 'e' || c = 'E' then parseExpDigits neg ip fp rr
    else .ok (mkDecNum neg ip fp false [], r)
  | [] => .ok (mkDecNum neg ip fp false [], r)

/-- The unsigned part of a JSON number (after an optional minus): nonempty
integer digits with no leading zero, optional fraction, optional
exponent. -/
def parseNumBody (neg : Bool) (r1 : List Char) : Except Err (Dec × List Char) :=
  let ip := r1.takeWhile (fun c => c.isDigit)
  let r2 := r1.drop ip.length
  if ip.isEmpty then .error .syntaxError
  else if ip.length > 1 && ip.head? = some '0' then .error .syntaxError
  else
    match r2 with
    | c :: rr =>
      if c = '.' then
        let fp := rr.takeWhile (fun c => c.isDigit)
        if fp.isEmpty then .error .syntaxError
        else parseExpPart neg ip fp (rr.drop fp.length)
      else parseExpPart neg ip [] r2
    | [] => parseExpPart neg ip [] r2

/-- JSON number parser (ECMA-404 grammar: optional minus, no leading zeros,
optional fraction and exponent). -/
def parseNum (cs : List Char) : Except Err (Dec × List Char) :=
  match cs with
  | c :: r => if c = '-' then parseNumBody true r else parseNumBody false cs
  | [] => parseNumBody false cs

mutual

/-- `JSON.parse` value parser (fuel-indexed so that it is structurally
recursive; `jsonParse` supplies ample fuel). -/
def parseValue : Nat → List Char → Except Err (JVal × List Char)
  | 0, _ => .error .syntaxError
  | fuel + 1, cs =>
    match skipJWs cs with
    | [] => .error .syntaxError
    | c :: rest =>
      if c = '{' then
        if (skipJWs rest).head? = some '}' then .ok (.obj [], (skipJWs rest).tail)
        else if (skipJWs rest).isEmpty then .error .syntaxError
        else parseMembers fuel (skipJWs rest) []
      else if c = '[' then
        if (skipJWs rest).head? = some ']' then .ok (.arr [], (skipJWs rest).tail)
        else if (skipJWs rest).isEmpty then .error .syntaxError
        else parseElems fuel (skipJWs rest) []
      else if c = '"' then
        match parseStr rest with
        | .ok (s, r) => .ok (.str ⟨s⟩, r)
        | .error e => .error e
      else if c = 't' then
        if "rue".data.isPrefixOf rest then .ok (.bool true, rest.drop 3)
        else .error .syntaxError
      else if c = 'f' then
        if "alse".data.isPrefixOf rest then .ok (.bool false, rest.drop 4)
        else .error .syntaxError
      else if c = 'n' then
        if "ull".data.isPrefixOf rest then .ok (.null, rest.drop 3)
        else .error .syntaxError
      else
        match parseNum (c :: rest) with
        | .ok (d, r) => .ok (.num d, r)
        | .error e => .error e

/-- Array elements after the first `[` (at least one element present). -/
def parseElems : Nat → List Char → List JVal → Except Err (JVal × List Char)
  | 0, _, _ => .error .syntaxError
  | fuel + 1, cs, acc =>
    Except.bind (parseValue fuel cs) fun vr =>
      if (skipJWs vr.2).head? = some ',' then
        parseElems fuel (skipJWs vr.2).tail (acc ++ [vr.1])
      else if (skipJWs vr.2).head? = some ']' then
        .ok (.arr (acc ++ [vr.1]), (skipJWs vr.2).tail)
      else .error .syntaxError

/-- Object members after the first `{` (at least one member present);
duplicate keys behave as JS objects do (later value wins, first position
kept) via `setKey`. -/
def parseMembers : Nat → List Char → List (String × JVal) →
    Except Err (JVal × List Char)
  | 0, _, _ => .error .syntaxError
  | fuel + 1, cs, acc =>
    if (skipJWs cs).head? = some '"' then
      Except.bind (parseStr (skipJWs cs).tail) fun kr =>
        if (skipJWs kr.2).head? = some ':' then
          Except.bind (parseValue fuel (skipJWs kr.2).tail) fun vr =>
            if (skipJWs vr.2).head? = some ',' then
              parseMembers fuel (skipJWs vr.2).tail (setKey acc ⟨kr.1⟩ vr.1)
            else if (skipJWs vr.2).head? = some '}' then
              .ok (.obj (setKey acc ⟨kr.1⟩ vr.1), (skipJWs vr.2).tail)
            else .error .syntaxError
        else .error .syntaxError
    else .error .syntaxError

end

/-- `JSON.parse`: parse one value, then only whitespace may remain. -/
def jsonParse (s : String) : Except Err JVal :=
  match parseValue (s.data.length + 1) s.data with
  | .ok (v, rest) =>
    if (skipJWs rest).isEmpty then .ok v else .error .syntaxError
  | .error e => .error e

/-- The `Model["status"]` enumeration (src/types, part_000). -/
inductive ModelStatus where
  | development
  | staging
  | production
  | archived
deriving DecidableEq, Repr

/-- The optional `metrics` group of a Model. -/
structure Metrics where
  accuracy : Option Dec
  latency : Option Dec
deriving DecidableEq, Repr

/-- The optional `files` group of a Model. -/
structure ModelFiles where
  modelCard : Option String
  trainingScript : Option String
  featureScript : Option String
  inferenceScript : Option String
  modelFile : Option String
deriving DecidableEq, Repr

/-- The canonical `Model` entity (src/types, part_000): all scalar fields
are always present after normalization; the two groups are optional. -/
structure Model where
  id : String
  name : String
  version : String
  description : String
  framework : String
  status : ModelStatus
  owner : String
  createdAt : String
  updatedAt : String
  metrics : Option Metrics
  files : Option ModelFiles
deriving DecidableEq, Repr

/-- `validateStatus` (github.ts:155-161): a string in the closed enumeration
maps to itself, anything else (wrong type, missing, unknown string) maps to
`development`. -/
def validateStatus (v : Option JVal) : ModelStatus :=
  match v with
  | some (.str s) =>
    if s = "development" then .development
    else if s = "staging" then .staging
    else if s = "production" then .production
    else if s = "archived" then .archived
    else .development
  | _ => .development

/-- `String(v || d)` for a possibly-`undefined` value `v` and a string
default `d`: the string conversion of `v` when `v` is truthy, else `d`. -/
def strOrDefault (v : Option JVal) (d : String) : String :=
  match v with
  | some v => if truthy v then jsToString v else d
  | none => d

/-- `String(a || b || d)`: first truthy of `a`, `b`, else `d`. -/
def strOrDefault2 (a b : Option JVal) (d : String) : String :=
  match a with
  | some v => if truthy v then jsToString v else strOrDefault b d
  | none => strOrDefault b d

/-- `typeof x === "number" ? x : undefined` for a property value. -/
def numProp : Option JVal → Option Dec
  | some (.num d) => some d
  | _ => none

/-- `typeof x === "string" ? x : undefined` for a property value. -/
def strProp : Option JVal → Option String
  | some (.str s) => some s
  | _ => none

/-- The record `normalizeModel` builds for a non-`null` record
(github.ts:127-152): every scalar field is filled, with its default used
for an absent or falsy value; the groups are included only for a truthy
source value, each group member only for a value of the right type.  `now`
is `new Date().toISOString()`. -/
def normalizeFields (item : JVal) (index : Nat) (now : String) : Model :=
  {
      id := strOrDefault (getProp item "id") ("model-" ++ natStr index)
      name := strOrDefault (getProp item "name") "Unnamed Model"
      version := strOrDefault (getProp item "version") "1.0.0"
      description := strOrDefault (getProp item "description") ""
      framework := strOrDefault (getProp item "framework") "Unknown"
      status := validateStatus (getProp item "status")
      owner := strOrDefault (getProp item "owner") "Unknown"
      createdAt := strOrDefault2 (getProp item "createdAt")
        (getProp item "created_at") now
      updatedAt := strOrDefault2 (getProp item "updatedAt")
        (getProp item "updated_at") now
      metrics :=
        match getProp item "metrics" with
        | some mv =>
          if truthy mv then
            some ⟨numProp (getProp mv "accuracy"), numProp (getProp mv "latency")⟩
          else none
        | none => none
      files :=
        match getProp item "files" with
        | some fv =>
          if truthy fv then
            some ⟨strProp (getProp fv "modelCard"),
              strProp (getProp fv "trainingScript"),
              strProp (getProp fv "featureScript"),
              strProp (getProp fv "inferenceScript"),
              strProp (getProp fv "modelFile")⟩
          else none
        | none => none }

/-- `normalizeModel` (github.ts:122-153).  Reading a property of a `null`
record throws a `TypeError` (the first read is `obj.files`, github.ts:126);
on any other record the full record of `normalizeFields` is built. -/
def normalizeModel (item : JVal) (index : Nat) (now : String) :
    Except Err Model :=
  match item with
  | .null => .error .typeError
  | item => .ok (normalizeFields item index now)

/-- `modelsArray.map((item, index) => normalizeModel(item, index))`
(github.ts:119), propagating the first thrown error. -/
def normalizeList (index : Nat) (xs : List JVal) (now : String) :
    Except Err (List Model) :=
  match xs with
  | [] => .ok []
  | x :: t =>
    match normalizeModel x index now with
    | .error e => .error e
    | .ok m =>
      match normalizeList (index + 1) t now with
      | .error e => .error e
      | .ok ms => .ok (m :: ms)

/-- Record-list extraction and normalization (github.ts:113-119) applied to
the decoded content: accept a bare array, else read `.models` (a `TypeError`
for `null` content), and fail with `MalformedConfig` when the extracted
value is not an array. -/
def parseConfigData (data : JVal) (now : String) : Except Err (List Model) :=
  match data with
  | .arr xs => normalizeList 0 xs now
  | data =>
    match getPropE data "models" with
    | .error e => .error e
    | .ok (some (.arr xs)) => normalizeList 0 xs now
    | .ok _ => .error .malformedConfig

/-- Decoder selection by extension (github.ts:102). -/
def isYamlPath (path : String) : Bool :=
  ".yaml".data.isSuffixOf path.data || ".yml".data.isSuffixOf path.data

/-- `parseConfigFile` (github.ts:101-120). -/
def parseConfigFile (content path now : String) : Except Err (List Model) :=
  if isYamlPath path then parseConfigData (parseYaml content) now
  else
    match jsonParse content with
    | .ok data => parseConfigData data now
    | .error e => .error e

/-- `GitHubSettings` (src/types, part_000). -/
structure GitHubSettings where
  repoOwner : String
  repoName : String
  branch : String
  configPath : String
  token : String
deriving DecidableEq, Repr

/-- A well-typed stored cache entry (`GitHubCache`, src/types, part_000);
`lastFetched` is held as its epoch-milliseconds value (the stored ISO string
composed with `new Date(_).getTime()`). -/
structure GitHubCache where
  models : List Model
  lastFetched : Int
  repoUrl : String
deriving DecidableEq, Repr

/-- `CACHE_TTL = 5 * 60 * 1000` (github.ts:5). -/
def CACHE_TTL : Int := 5 * 60 * 1000

/-- `getCache` (github.ts:28-41) over a well-typed stored entry: absent
stays absent, and an entry strictly older than the TTL is treated as
absent. -/
def getCache (stored : Option GitHubCache) (now : Int) : Option GitHubCache :=
  match stored with
  | none => none
  | some c => if now - c.lastFetched > CACHE_TTL then none else some c

/-- The HTTP response to the config fetch, as the code observes it:
its status, and the base64-decoded text of the envelope's `content` field
(the `atob(data.content)` of github.ts:92). -/
structure HttpResponse where
  status : Nat
  content : String
deriving DecidableEq, Repr

/-- `Response.ok`: status in the range 200-299. -/
def respOk (r : HttpResponse) : Bool := 200 ≤ r.status && r.status < 300

/-- `${settings.repoOwner}/${settings.repoName}` (github.ts:55). -/
def repoId (s : GitHubSettings) : String := s.repoOwner ++ "/" ++ s.repoName

/-- The error classification of a non-success response (github.ts:76-87). -/
def classifyStatus (status : Nat) (configPath : String) : Err :=
  if status = 404 then .configNotFound configPath
  else if status = 401 then .invalidCredential
  else if status = 403 then .rateLimitedOrDenied
  else .transportError status

/-- The exact message strings of the thrown errors (github.ts:78-86,116). -/
def errMessage : Err → String
  | .configNotFound p => "Config file not found: " ++ p
  | .invalidCredential => "Invalid GitHub token"
  | .rateLimitedOrDenied => "Rate limited or access denied"
  | .transportError s => "GitHub API error: " ++ natStr s
  | .malformedConfig => "Config file must contain an array of models"
  | .typeError => "TypeError"
  | .syntaxError => "SyntaxError"

/-- One call's observable outcome: the returned list or thrown error,
whether a network request was issued, and the cache contents afterwards. -/
structure FetchOutcome where
  result : Except Err (List Model)
  networkRequest : Bool
  newCache : Option GitHubCache

/-- The cache consultation of `fetchModelsFromGitHub` (github.ts:57-61):
the cached model list, when a fresh entry matches the active repository
identity. -/
def cacheHit (settings : GitHubSettings) (stored : Option GitHubCache)
    (now : Int) : Option (List Model) :=
  match getCache stored now with
  | some cached =>
    if cached.repoUrl = repoId settings then some cached.models else none
  | none => none

/-- The body of `fetchModelsFromGitHub` past the cache check
(github.ts:63-98). -/
def fetchFromNetwork (settings : GitHubSettings) (stored : Option GitHubCache)
    (now : Int) (nowIso : String) (resp : HttpResponse) : FetchOutcome :=
  if respOk resp then
    match parseConfigFile resp.content settings.configPath nowIso with
    | .ok parsed => ⟨.ok parsed, true, some ⟨parsed, now, repoId settings⟩⟩
    | .error e => ⟨.error e, true, stored⟩
  else ⟨.error (classifyStatus resp.status settings.configPath), true, stored⟩

/-- `fetchModelsFromGitHub` (github.ts:52-99).  The ambient state and the
network are passed explicitly: `stored` is the persisted cache entry, `now`
the current epoch-milliseconds, `nowIso` its ISO timestamp, and `resp` the
response the network would give (consulted only if a request is issued). -/
def fetchModelsFromGitHub (settings : GitHubSettings)
    (stored : Option GitHubCache) (now : Int) (nowIso : String)
    (resp : HttpResponse) : FetchOutcome :=
  match cacheHit settings stored now with
  | some models => ⟨.ok models, false, stored⟩
  | none => fetchFromNetwork settings stored now nowIso resp

/-- `getSettings` (github.ts:7-15) at the persistence level: the stored
string (if any) is JSON-parsed; a missing or empty stored value and a parse
failure all yield `null` (the parsed value is returned without further
validation). -/
def getSettings (stored : Option String) : Option JVal :=
  match stored with
  | none => none
  | some s => if s = "" then none else (jsonParse s).toOption

/-- `getCache` (github.ts:28-41) at the persistence level.  `dateParse`
models the environment-defined `new Date(x).getTime()` (`none` standing for
`NaN`, under which the expiry comparison is false and the entry is
returned); a `TypeError` reading `lastFetched` of a parsed `null` is caught
by the surrounding `try`, yielding `null`. -/
def getCacheStored (stored : Option String) (now : Int)
    (dateParse : Option JVal → Option Int) : Option JVal :=
  match stored with
  | none => none
  | some s =>
    if s = "" then none
    else
      match jsonParse s with
      | .error _ => none
      | .ok v =>
        match getPropE v "lastFetched" with
        | .error _ => none
        | .ok lf =>
          match dateParse lf with
          | some t => if now - t > CACHE_TTL then none else some v
          | none => some v

def hexChar (n : Nat) : Char :=
  if n < 10 then Char.ofNat (48 + n) else Char.ofNat (87 + n)

/-- JSON escaping of one string character: quote and backslash get a
backslash escape, control characters a `\u00XX` escape, everything else is
itself. -/
def escChar (c : Char) : List Char :=
  if c = '"' || c = '\\' then ['\\', c]
  else if c.toNat < 32 then
    ['\\', 'u', '0', '0', hexChar (c.toNat / 16), hexChar (c.toNat % 16)]
  else [c]

def escapeChars : List Char → List Char
  | [] => []
  | c :: t => escChar c ++ escapeChars t

mutual

/-- Modelled from the spec: the repository contains no encoder; §8's
round-trip property presumes "encoding a list of canonical Models into the
strict (JSON-array) format", i.e. a plain JSON serializer.  This renders a
decoded value as JSON text. -/
def renderJson : JVal → List Char
  | .null => "null".data
  | .bool b => if b then "true".data else "false".data
  | .num d => renderDec d
  | .str s => '"' :: escapeChars s.data ++ ['"']
  | .arr xs => '[' :: renderElemsJ xs ++ [']']
  | .obj fs => '{' :: renderFieldsJ fs ++ ['}']

/-- Elements of a JSON array: first element followed by the comma tail. -/
def renderElemsJ : List JVal → List Char
  | [] => []
  | v :: t => renderJson v ++ renderTailJ t

def renderTailJ : List JVal → List Char
  | [] => []
  | v :: t => ',' :: renderJson v ++ renderTailJ t

/-- Members of a JSON object: first member followed by the comma tail. -/
def renderFieldsJ : List (String × JVal) → List Char
  | [] => []
  | (k, v) :: t =>
    '"' :: escapeChars k.data ++ '"' :: ':' :: renderJson v ++ renderFTailJ t

def renderFTailJ : List (String × JVal) → List Char
  | [] => []
  | (k, v) :: t =>
    ',' :: '"' :: escapeChars k.data ++ '"' :: ':' :: renderJson v ++
      renderFTailJ t

end

def statusString : ModelStatus → String
  | .development => "development"
  | .staging => "staging"
  | .production => "production"
  | .archived => "archived"

/-- One optional field of an encoded record. -/
def optField (k : String) (v : Option JVal) : List (String × JVal) :=
  match v with
  | some v => [(k, v)]
  | none => []

/-- Modelled from the spec: the record a canonical Model is encoded as in
the strict (JSON-array) format — every always-present scalar under its
canonical key, each optional group present iff it is set, and inside a
group each field present iff it is set. -/
def modelToJVal (m : Model) : JVal :=
  .obj ([("id", .str m.id), ("name", .str m.name),
    ("version", .str m.version), ("description", .str m.description),
    ("framework", .str m.framework), ("status", .str (statusString m.status)),
    ("owner", .str m.owner), ("createdAt", .str m.createdAt),
    ("updatedAt", .str m.updatedAt)] ++
    optField "metrics" (m.metrics.map (fun g =>
      .obj (optField "accuracy" (g.accuracy.map .num) ++
        optField "latency" (g.latency.map .num)))) ++
    optField "files" (m.files.map (fun f =>
      .obj (optField "modelCard" (f.modelCard.map .str) ++
        optField "trainingScript" (f.trainingScript.map .str) ++
        optField "featureScript" (f.featureScript.map .str) ++
        optField "inferenceScript" (f.inferenceScript.map .str) ++
        optField "modelFile" (f.modelFile.map .str)))))

/-- Modelled from the spec: encoding a list of canonical Models into the
strict (JSON-array) format. -/
def encodeModels (ms : List Model) : String :=
  ⟨renderJson (.arr (ms.map modelToJVal))⟩

/-- C1: a stored cache entry whose repository identity equals the active
settings' `owner/name` and whose age is within the 5-minute TTL is returned
as-is with no network request; with no entry, an over-TTL entry, or a
mismatched identity, a network request is issued. -/
theorem fetchModels_cache_policy (s : GitHubSettings)
    (stored : Option GitHubCache) (now : Int) (nowIso : String)
    (resp : HttpResponse) :
    (∀ c, stored = some c → c.repoUrl = repoId s →
      now - c.lastFetched ≤ CACHE_TTL →
      fetchModelsFromGitHub s stored now nowIso resp =
        ⟨.ok c.models, false, stored⟩) ∧
    ((stored = none ∨
        ∀ c, stored = some c →
          c.repoUrl ≠ repoId s ∨ now - c.lastFetched > CACHE_TTL) →
      (fetchModelsFromGitHub s stored now nowIso resp).networkRequest = true) := by
  constructor
  · rintro c rfl hid hage
    simp [fetchModelsFromGitHub, cacheHit, getCache, not_lt.mpr hage, hid]
  · intro hmiss
    have hnone : cacheHit s stored now = none := by
      rcases hmiss with rfl | h
      · rfl
      · cases stored with
        | none => rfl
        | some c =>
          rcases h c rfl with hid | hage
          · by_cases hexp : now - c.lastFetched > CACHE_TTL
            · simp [cacheHit, getCache, hexp]
            · simp [cacheHit, getCache, hexp, hid]
          · simp [cacheHit, getCache, hage]
    simp only [fetchModelsFromGitHub, hnone, fetchFromNetwork]
    (split <;> try split) <;> rfl

/-- C1 witness: a fresh matching entry is returned without network I/O. -/
theorem fetchModels_cache_policy_witness :
    fetchModelsFromGitHub ⟨"o", "r", "main", "models.yaml", ""⟩
      (some ⟨[], 1000, "o/r"⟩) 2000 "T" ⟨500, ""⟩ =
      ⟨.ok [], false, some ⟨[], 1000, "o/r"⟩⟩ :=
  (fetchModels_cache_policy ⟨"o", "r", "main", "models.yaml", ""⟩
    (some ⟨[], 1000, "o/r"⟩) 2000 "T" ⟨500, ""⟩).1
    ⟨[], 1000, "o/r"⟩ rfl rfl (by decide)

/-- C2: when the call issues a network request and the response is not
successful, a 404 fails with the config-not-found error naming the
configured path, a 401 with the invalid-credential error, a 403 with the
rate-limited-or-denied error, and any other non-success status with the
transport error carrying that status. -/
theorem fetchModels_error_classification (s : GitHubSettings)
    (stored : Option GitHubCache) (now : Int) (nowIso : String)
    (resp : HttpResponse)
    (hnet : (fetchModelsFromGitHub s stored now nowIso resp).networkRequest
      = true) :
    (resp.status = 404 →
      (fetchModelsFromGitHub s stored now nowIso resp).result =
        .error (.configNotFound s.configPath) ∧
      errMessage (.configNotFound s.configPath) =
        "Config file not found: " ++ s.configPath) ∧
    (resp.status = 401 →
      (fetchModelsFromGitHub s stored now nowIso resp).result =
        .error .invalidCredential) ∧
    (resp.status = 403 →
      (fetchModelsFromGitHub s stored now nowIso resp).result =
        .error .rateLimitedOrDenied) ∧
    (respOk resp = false → resp.status ≠ 404 → resp.status ≠ 401 →
      resp.status ≠ 403 →
      (fetchModelsFromGitHub s stored now nowIso resp).result =
        .error (.transportError resp.status)) := by
  have hmiss : cacheHit s stored now = none := by
    unfold fetchModelsFromGitHub at hnet
    rcases h : cacheHit s stored now with _ | models
    · rfl
    · rw [h] at hnet
      simp at hnet
  have main : respOk resp = false →
      (fetchModelsFromGitHub s stored now nowIso resp).result =
        .error (classifyStatus resp.status s.configPath) := by
    intro hok
    simp [fetchModelsFromGitHub, hmiss, fetchFromNetwork, hok]
  refine ⟨?_, ?_, ?_, ?_⟩
  · intro h
    refine ⟨?_, rfl⟩
    have := main (by simp [respOk, h])
    rw [this, h]
    simp [classifyStatus]
  · intro h
    have := main (by simp [respOk, h])
    rw [this, h]
    simp [classifyStatus]
  · intro h
    have := main (by simp [respOk, h])
    rw [this, h]
    simp [classifyStatus]
  · intro hok h404 h401 h403
    rw [main hok]
    simp [classifyStatus, h404, h401, h403]

/-- C2 witness: an empty cache and a 404 response produce the
config-not-found failure naming the configured path. -/
theorem fetchModels_error_classification_witness :
    (fetchModelsFromGitHub ⟨"o", "r", "main", "cfg/models.yaml", "t"⟩ none 0 "T"
      ⟨404, ""⟩).result = .error (.configNotFound "cfg/models.yaml") ∧
    errMessage (.configNotFound "cfg/models.yaml") =
      "Config file not found: cfg/models.yaml" :=
  (fetchModels_error_classification ⟨"o", "r", "main", "cfg/models.yaml", "t"⟩
    none 0 "T" ⟨404, ""⟩ rfl).1 rfl

/-- C3 counterexample: the claim quantifies over every element of the
extracted record list, and a JSON config may contain a `null` element
(e.g. content "[null]"); normalizing the `null` record throws a `TypeError`
at the first property read (github.ts:126), so `normalizeModel` is not
total on decoded records. -/
theorem normalizeModel_null_raises :
    normalizeModel JVal.null 0 "2024-01-01T00:00:00.000Z" =
      .error .typeError ∧
    parseConfigFile "[null]" "models.json" "2024-01-01T00:00:00.000Z" =
      .error .typeError :=
  ⟨rfl, rfl⟩

/-- C3 (amended): for every decoded record other than `null`,
`normalizeModel` never raises and returns a Model (whose required fields
are all populated — they are total fields of the structure). -/
theorem normalizeModel_total (item : JVal) (index : Nat) (now : String)
    (h : item ≠ .null) :
    ∃ m : Model, normalizeModel item index now = .ok m := by
  cases item with
  | null => exact absurd rfl h
  | bool b => exact ⟨_, rfl⟩
  | num d => exact ⟨_, rfl⟩
  | str s => exact ⟨_, rfl⟩
  | arr xs => exact ⟨_, rfl⟩
  | obj fs => exact ⟨_, rfl⟩

/-- C3 witness: a record of the wrong type (a bare number) still
normalizes. -/
theorem normalizeModel_total_witness :
    JVal.num ⟨5, 0⟩ ≠ JVal.null ∧
    ∃ m : Model, normalizeModel (JVal.num ⟨5, 0⟩) 0 "T" = .ok m :=
  ⟨by simp, normalizeModel_total (JVal.num ⟨5, 0⟩) 0 "T" (by simp)⟩

/-- C4: the six-line YAML scenario decodes to exactly two records, the
first holding a nested metrics mapping with accuracy the number 0.9
(the canonical decimal 9/10), and normalizing the second yields status
`development` since "bogus" is not in the enumeration. -/
theorem parseYaml_scenario :
    parseYaml "- id: m1\n  name: Foo\n  metrics:\n    accuracy: 0.9\n- id: m2\n  status: bogus" =
      .arr [.obj [("id", .str "m1"), ("name", .str "Foo"),
          ("metrics", .obj [("accuracy", .num ⟨9, 1⟩)])],
        .obj [("id", .str "m2"), ("status", .str "bogus")]] ∧
    (Dec.val ⟨9, 1⟩ = 9 / 10) ∧
    (∀ now, normalizeModel (.obj [("id", .str "m2"), ("status", .str "bogus")])
      1 now =
      .ok ⟨"m2", "Unnamed Model", "1.0.0", "", "Unknown", .development,
        "Unknown", now, now, none, none⟩) :=
  ⟨rfl, by norm_num [Dec.val], fun now => rfl⟩

/-- C8 counterexample: the JSON text "null" decodes successfully to `null`,
which is not an array, yet the fetch fails with a `TypeError` (reading
`.models` of `null`, github.ts:113), not with the MalformedConfig error. -/
theorem parseConfigFile_null_typeError :
    parseConfigFile "null" "models.json" "T" = .error .typeError ∧
    Err.typeError ≠ Err.malformedConfig :=
  ⟨rfl, by decide⟩

/-- C8 (amended): after a successful decode, a bare array or an object
whose `models` field is an array is accepted; any other decoded content
fails with the MalformedConfig error, except decoded `null`, whose `models`
read throws a `TypeError`. -/
theorem config_extraction (data : JVal) (now : String) :
    (∀ xs, data = .arr xs → parseConfigData data now = normalizeList 0 xs now) ∧
    (∀ xs, data ≠ .arr xs → getProp data "models" = some (.arr xs) →
      parseConfigData data now = normalizeList 0 xs now) ∧
    (data ≠ .null → (∀ xs, data ≠ .arr xs) →
      (∀ xs, getProp data "models" ≠ some (.arr xs)) →
      parseConfigData data now = .error .malformedConfig) ∧
    (data = .null → parseConfigData data now = .error .typeError) ∧
    (∀ content path, jsonParse content = .ok data → isYamlPath path = false →
      parseConfigFile content path now = parseConfigData data now) := by
  refine ⟨?_, ?_, ?_, ?_, ?_⟩
  · rintro xs rfl
    rfl
  · intro xs hne hm
    cases data with
    | arr ys => simp [getProp] at hm
    | null => simp [getProp] at hm
    | bool b => simp [getProp] at hm
    | num d => simp [getProp] at hm
    | str s => simp [getProp] at hm
    | obj fs => simp [parseConfigData, getPropE, hm]
  · intro hnull hnarr hnm
    cases data with
    | null => exact absurd rfl hnull
    | arr ys => exact absurd rfl (hnarr _)
    | bool b => simp only [parseConfigData, getPropE, getProp]
    | num d => simp only [parseConfigData, getPropE, getProp]
    | str s => simp only [parseConfigData, getPropE, getProp]
    | obj fs => simp only [parseConfigData, getPropE]
  · rintro rfl
    rfl
  · intro content path hj hy
    simp [parseConfigFile, hy, hj]

/-- C8 witness: content "{}" decodes to an object with no `models` array
and fails with the MalformedConfig error, whose message is the one thrown
at github.ts:116. -/
theorem config_extraction_witness :
    parseConfigData (.obj []) "T" = .error .malformedConfig ∧
    parseConfigFile "{}" "models.json" "T" = .error .malformedConfig ∧
    errMessage .malformedConfig = "Config file must contain an array of models" :=
  ⟨((config_extraction (.obj []) "T").2.2.1 (by simp) (fun xs => by simp)
      (fun xs => by simp [getProp])),
   by
    rw [(config_extraction (.obj []) "T").2.2.2.2 "{}" "models.json" rfl rfl]
    exact (config_extraction (.obj []) "T").2.2.1 (by simp) (fun xs => by simp)
      (fun xs => by simp [getProp]),
   rfl⟩

/-- C10: `getSettings` and `getCache` never raise: an absent stored value
yields `null`, and a stored value that does not parse as JSON yields `null`
(for any current time and any environment date parsing), so corruption
behaves as not-configured / a cache miss. -/
theorem stored_corruption_behaves_as_miss :
    (getSettings none = none) ∧
    (∀ s e, jsonParse s = .error e → getSettings (some s) = none) ∧
    (∀ now dp, getCacheStored none now dp = none) ∧
    (∀ s e now dp, jsonParse s = .error e →
      getCacheStored (some s) now dp = none) := by
  refine ⟨rfl, ?_, fun now dp => rfl, ?_⟩
  · intro s e h
    by_cases hs : s = ""
    · simp [getSettings, hs]
    · simp [getSettings, hs, h, Except.toOption]
  · intro s e now dp h
    by_cases hs : s = ""
    · simp [getCacheStored, hs]
    · simp [getCacheStored, hs, h]

/-- C10 witness: the corrupted stored text "oops" parses as neither
settings nor cache and behaves as absent. -/
theorem stored_corruption_witness :
    getSettings (some "oops") = none ∧
    getCacheStored (some "oops") 0 (fun _ => none) = none :=
  ⟨stored_corruption_behaves_as_miss.2.1 "oops" .syntaxError rfl,
   stored_corruption_behaves_as_miss.2.2.2 "oops" .syntaxError 0 _ rfl⟩

/-- On a successful normalization the result is the `normalizeFields`
record. -/
theorem normalizeModel_ok_eq (item : JVal) (index : Nat) (now : String)
    (m : Model) (h : normalizeModel item index now = .ok m) :
    m = normalizeFields item index now := by
  cases item <;> simp [normalizeModel] at h <;> exact h.symm

/-- Behaviour of the `String(v || d)` coercion. -/
theorem strOrDefault_spec (v? : Option JVal) (d : String) :
    (∀ v, v? = some v → truthy v = true → strOrDefault v? d = jsToString v) ∧
    ((v? = none ∨ ∃ v, v? = some v ∧ truthy v = false) →
      strOrDefault v? d = d) := by
  constructor
  · rintro v rfl ht
    simp [strOrDefault, ht]
  · rintro (rfl | ⟨v, rfl, hf⟩)
    · rfl
    · simp [strOrDefault, hf]

/-- Behaviour of the `typeof x === "number"` filter. -/
theorem numProp_spec (v? : Option JVal) :
    (∀ d, v? = some (.num d) → numProp v? = some d) ∧
    ((∀ d, v? ≠ some (.num d)) → numProp v? = none) := by
  constructor
  · rintro d rfl
    rfl
  · intro h
    match v? with
    | none => rfl
    | some .null => rfl
    | some (.bool b) => rfl
    | some (.num d) => exact absurd rfl (h d)
    | some (.str s) => rfl
    | some (.arr xs) => rfl
    | some (.obj fs) => rfl

/-- Behaviour of the `typeof x === "string"` filter. -/
theorem strProp_spec (v? : Option JVal) :
    (∀ s, v? = some (.str s) → strProp v? = some s) ∧
    ((∀ s, v? ≠ some (.str s)) → strProp v? = none) := by
  constructor
  · rintro s rfl
    rfl
  · intro h
    match v? with
    | none => rfl
    | some .null => rfl
    | some (.bool b) => rfl
    | some (.num d) => rfl
    | some (.str s) => exact absurd rfl (h s)
    | some (.arr xs) => rfl
    | some (.obj fs) => rfl

/-- C6 counterexample: a record that supplies `metrics: null` (and
`files: 0`) — the keys are present, yet the normalized Model carries
neither group, because the code tests truthiness of the value, not key
presence. -/
theorem normalize_metrics_null_dropped :
    getProp (.obj [("metrics", .null), ("files", .num ⟨0, 0⟩)]) "metrics" =
      some .null ∧
    getProp (.obj [("metrics", .null), ("files", .num ⟨0, 0⟩)]) "files" =
      some (.num ⟨0, 0⟩) ∧
    normalizeModel (.obj [("metrics", .null), ("files", .num ⟨0, 0⟩)]) 0 "T" =
      .ok ⟨"model-0", "Unnamed Model", "1.0.0", "", "Unknown", .development,
        "Unknown", "T", "T", none, none⟩ :=
  ⟨rfl, rfl, rfl⟩

/-- C6 (amended): the metrics group is included in the output exactly when
the record's `metrics` value is truthy (so present keys with falsy values
such as `null` or `0` behave as absent); within the group accuracy
(resp. latency) is present exactly when the source value is a number, never
coerced; the files group likewise for a truthy `files` value, with each
path field present exactly when its source value is a string. -/
theorem normalize_groups_presence (item : JVal) (index : Nat) (now : String)
    (m : Model) (h : normalizeModel item index now = .ok m) :
    (m.metrics.isSome = truthyO (getProp item "metrics")) ∧
    (∀ mv g, getProp item "metrics" = some mv → truthy mv = true →
      m.metrics = some g →
      (∀ d, getProp mv "accuracy" = some (.num d) → g.accuracy = some d) ∧
      ((∀ d, getProp mv "accuracy" ≠ some (.num d)) → g.accuracy = none) ∧
      (∀ d, getProp mv "latency" = some (.num d) → g.latency = some d) ∧
      ((∀ d, getProp mv "latency" ≠ some (.num d)) → g.latency = none)) ∧
    (m.files.isSome = truthyO (getProp item "files")) ∧
    (∀ fv f, getProp item "files" = some fv → truthy fv = true →
      m.files = some f →
      (∀ s, getProp fv "modelCard" = some (.str s) → f.modelCard = some s) ∧
      ((∀ s, getProp fv "modelCard" ≠ some (.str s)) → f.modelCard = none) ∧
      (∀ s, getProp fv "trainingScript" = some (.str s) →
        f.trainingScript = some s) ∧
      ((∀ s, getProp fv "trainingScript" ≠ some (.str s)) →
        f.trainingScript = none) ∧
      (∀ s, getProp fv "featureScript" = some (.str s) →
        f.featureScript = some s) ∧
      ((∀ s, getProp fv "featureScript" ≠ some (.str s)) →
        f.featureScript = none) ∧
      (∀ s, getProp fv "inferenceScript" = some (.str s) →
        f.inferenceScript = some s) ∧
      ((∀ s, getProp fv "inferenceScript" ≠ some (.str s)) →
        f.inferenceScript = none) ∧
      (∀ s, getProp fv "modelFile" = some (.str s) → f.modelFile = some s) ∧
      ((∀ s, getProp fv "modelFile" ≠ some (.str s)) → f.modelFile = none)) := by
  obtain rfl := normalizeModel_ok_eq item index now m h
  refine ⟨?_, ?_, ?_, ?_⟩
  · show (match getProp item "metrics" with
      | some mv => if truthy mv then
          some (⟨numProp (getProp mv "accuracy"), numProp (getProp mv "latency")⟩ : Metrics)
        else none
      | none => none).isSome = truthyO (getProp item "metrics")
    rcases getProp item "metrics" with _ | mv
    · rfl
    · by_cases ht : truthy mv <;> simp [truthyO, ht]
  · intro mv g hmv ht hg
    have : (normalizeFields item index now).metrics =
        some ⟨numProp (getProp mv "accuracy"), numProp (getProp mv "latency")⟩ := by
      show (match getProp item "metrics" with
        | some mv => if truthy mv then
            some (⟨numProp (getProp mv "accuracy"), numProp (getProp mv "latency")⟩ : Metrics)
          else none
        | none => none) = _
      rw [hmv]
      simp [ht]
    rw [this] at hg
    obtain rfl : g = ⟨numProp (getProp mv "accuracy"), numProp (getProp mv "latency")⟩ :=
      (Option.some.injEq _ _ ▸ hg).symm
    exact ⟨(numProp_spec _).1, (numProp_spec _).2, (numProp_spec _).1,
      (numProp_spec _).2⟩
  · show (match getProp item "files" with
      | some fv => if truthy fv then
          some (⟨strProp (getProp fv "modelCard"), strProp (getProp fv "trainingScript"),
            strProp (getProp fv "featureScript"), strProp (getProp fv "inferenceScript"),
            strProp (getProp fv "modelFile")⟩ : ModelFiles)
        else none
      | none => none).isSome = truthyO (getProp item "files")
    rcases getProp item "files" with _ | fv
    · rfl
    · by_cases ht : truthy fv <;> simp [truthyO, ht]
  · intro fv f hfv ht hf
    have : (normalizeFields item index now).files =
        some ⟨strProp (getProp fv "modelCard"), strProp (getProp fv "trainingScript"),
          strProp (getProp fv "featureScript"), strProp (getProp fv "inferenceScript"),
          strProp (getProp fv "modelFile")⟩ := by
      show (match getProp item "files" with
        | some fv => if truthy fv then
            some (⟨strProp (getProp fv "modelCard"), strProp (getProp fv "trainingScript"),
              strProp (getProp fv "featureScript"), strProp (getProp fv "inferenceScript"),
              strProp (getProp fv "modelFile")⟩ : ModelFiles)
          else none
        | none => none) = _
      rw [hfv]
      simp [ht]
    rw [this] at hf
    obtain rfl : f = ⟨strProp (getProp fv "modelCard"), strProp (getProp fv "trainingScript"),
        strProp (getProp fv "featureScript"), strProp (getProp fv "inferenceScript"),
        strProp (getProp fv "modelFile")⟩ :=
      (Option.some.injEq _ _ ▸ hf).symm
    exact ⟨(strProp_spec _).1, (strProp_spec _).2, (strProp_spec _).1,
      (strProp_spec _).2, (strProp_spec _).1, (strProp_spec _).2,
      (strProp_spec _).1, (strProp_spec _).2, (strProp_spec _).1,
      (strProp_spec _).2⟩

/-- C6 witness: a record with a truthy metrics object holding a numeric
accuracy and a non-numeric latency, and a truthy non-object files value. -/
theorem normalize_groups_presence_witness :
    (normalizeModel (.obj [("metrics",
        .obj [("accuracy", .num ⟨9, 1⟩), ("latency", .str "slow")]),
      ("files", .str "f")]) 0 "T" =
      .ok ⟨"model-0", "Unnamed Model", "1.0.0", "", "Unknown", .development,
        "Unknown", "T", "T", some ⟨some ⟨9, 1⟩, none⟩,
        some ⟨none, none, none, none, none⟩⟩) ∧
    (some (⟨some ⟨9, 1⟩, none⟩ : Metrics)).isSome =
      truthyO (getProp (.obj [("metrics",
        .obj [("accuracy", .num ⟨9, 1⟩), ("latency", .str "slow")]),
      ("files", .str "f")]) "metrics") :=
  ⟨rfl,
   (normalize_groups_presence
     (.obj [("metrics", .obj [("accuracy", .num ⟨9, 1⟩), ("latency", .str "slow")]),
       ("files", .str "f")]) 0 "T"
     ⟨"model-0", "Unnamed Model", "1.0.0", "", "Unknown", .development,
       "Unknown", "T", "T", some ⟨some ⟨9, 1⟩, none⟩,
       some ⟨none, none, none, none, none⟩⟩ rfl).1⟩

/-- C7 counterexample: a record that supplies `name: ""` — the value is
present, and its string conversion is "", yet the normalized name is the
default "Unnamed Model", because the present-but-falsy value takes the
default branch of `||`. -/
theorem normalize_empty_name_defaulted :
    getProp (.obj [("name", .str "")]) "name" = some (.str "") ∧
    jsToString (.str "") = "" ∧
    normalizeModel (.obj [("name", .str "")]) 0 "T" =
      .ok ⟨"model-0", "Unnamed Model", "1.0.0", "", "Unknown", .development,
        "Unknown", "T", "T", none, none⟩ ∧
    ("Unnamed Model" : String) ≠ "" :=
  ⟨rfl, rfl, rfl, by decide⟩

/-- C7 (amended): each scalar string field (id, name, version, description,
framework, owner) is set to the string conversion of the supplied value
when that value is truthy; the per-field default is used when the field is
absent or its supplied value is falsy (empty string, 0, false, or null). -/
theorem normalize_scalar_coercion (item : JVal) (index : Nat) (now : String)
    (m : Model) (h : normalizeModel item index now = .ok m) :
    ((∀ v, getProp item "id" = some v → truthy v = true →
        m.id = jsToString v) ∧
      ((getProp item "id" = none ∨
          ∃ v, getProp item "id" = some v ∧ truthy v = false) →
        m.id = "model-" ++ natStr index)) ∧
    ((∀ v, getProp item "name" = some v → truthy v = true →
        m.name = jsToString v) ∧
      ((getProp item "name" = none ∨
          ∃ v, getProp item "name" = some v ∧ truthy v = false) →
        m.name = "Unnamed Model")) ∧
    ((∀ v, getProp item "version" = some v → truthy v = true →
        m.version = jsToString v) ∧
      ((getProp item "version" = none ∨
          ∃ v, getProp item "version" = some v ∧ truthy v = false) →
        m.version = "1.0.0")) ∧
    ((∀ v, getProp item "description" = some v → truthy v = true →
        m.description = jsToString v) ∧
      ((getProp item "description" = none ∨
          ∃ v, getProp item "description" = some v ∧ truthy v = false) →
        m.description = "")) ∧
    ((∀ v, getProp item "framework" = some v → truthy v = true →
        m.framework = jsToString v) ∧
      ((getProp item "framework" = none ∨
          ∃ v, getProp item "framework" = some v ∧ truthy v = false) →
        m.framework = "Unknown")) ∧
    ((∀ v, getProp item "owner" = some v → truthy v = true →
        m.owner = jsToString v) ∧
      ((getProp item "owner" = none ∨
          ∃ v, getProp item "owner" = some v ∧ truthy v = false) →
        m.owner = "Unknown")) := by
  obtain rfl := normalizeModel_ok_eq item index now m h
  exact ⟨⟨fun v hv ht => (strOrDefault_spec _ _).1 v hv ht,
      fun hd => (strOrDefault_spec _ _).2 hd⟩,
    ⟨fun v hv ht => (strOrDefault_spec _ _).1 v hv ht,
      fun hd => (strOrDefault_spec _ _).2 hd⟩,
    ⟨fun v hv ht => (strOrDefault_spec _ _).1 v hv ht,
      fun hd => (strOrDefault_spec _ _).2 hd⟩,
    ⟨fun v hv ht => (strOrDefault_spec _ _).1 v hv ht,
      fun hd => (strOrDefault_spec _ _).2 hd⟩,
    ⟨fun v hv ht => (strOrDefault_spec _ _).1 v hv ht,
      fun hd => (strOrDefault_spec _ _).2 hd⟩,
    ⟨fun v hv ht => (strOrDefault_spec _ _).1 v hv ht,
      fun hd => (strOrDefault_spec _ _).2 hd⟩⟩

/-- C7 witness: a record supplying a truthy name (a nonempty string and
also a number for version) uses the conversions; an empty-string owner and
an absent framework take the defaults. -/
theorem normalize_scalar_coercion_witness :
    normalizeModel (.obj [("name", .str "X"), ("version", .num ⟨2, 0⟩),
      ("owner", .str "")]) 3 "T" =
      .ok ⟨"model-3", "X", "2", "", "Unknown", .development, "Unknown",
        "T", "T", none, none⟩ ∧
    "X" = jsToString (.str "X") ∧
    "2" = jsToString (.num ⟨2, 0⟩) ∧
    ("Unknown" : String) = "Unknown" := by
  refine ⟨rfl, ?_, ?_, rfl⟩
  · exact ((normalize_scalar_coercion
      (.obj [("name", .str "X"), ("version", .num ⟨2, 0⟩), ("owner", .str "")])
      3 "T"
      ⟨"model-3", "X", "2", "", "Unknown", .development, "Unknown",
        "T", "T", none, none⟩ rfl).2.1.1 (.str "X") rfl rfl)
  · exact ((normalize_scalar_coercion
      (.obj [("name", .str "X"), ("version", .num ⟨2, 0⟩), ("owner", .str "")])
      3 "T"
      ⟨"model-3", "X", "2", "", "Unknown", .development, "Unknown",
        "T", "T", none, none⟩ rfl).2.2.1.1 (.num ⟨2, 0⟩) rfl rfl)

/-- A line whose trimmed text starts with the dash marker takes the
new-record branch of the loop: the previous record (if any) is pushed and a
fresh record is opened holding exactly the inline fields of the dash
line. -/
theorem yamlStep_dash (st : YState) (l : List Char)
    (h1 : ['-', ' '].isPrefixOf (trimC l) = true) :
    yamlStep st l = ⟨(match st.curObj with
      | some o => st.result ++ [.obj (attachNested o st.curNested st.curNestedKey)]
      | none => st.result), some (dashInline (trimC l)), none, none⟩ := by
  obtain ⟨u, hu⟩ := List.isPrefixOf_iff_prefix.mp h1
  simp only [yamlStep, ← hu]
  simp [List.isPrefixOf]

/-- C5: a record line whose dash marker carries no inline key-value starts
a record with zero fields (fields accumulate only from following lines, as
the loop threads `curObj` onward), and a two-line document of two such dash
lines produces exactly two records, the first (indeed both) empty. -/
theorem yaml_dash_empty_records (l1 l2 : List Char)
    (h1 : ['-', ' '].isPrefixOf (trimC l1) = true)
    (h1' : dashInline (trimC l1) = [])
    (h2 : ['-', ' '].isPrefixOf (trimC l2) = true)
    (h2' : dashInline (trimC l2) = []) :
    (∀ st, (yamlStep st l1).curObj = some []) ∧
    parseYamlLines [l1, l2] = [.obj [], .obj []] := by
  constructor
  · intro st
    rw [yamlStep_dash st l1 h1, h1']
  · unfold parseYamlLines
    rw [List.foldl_cons, List.foldl_cons, List.foldl_nil]
    rw [yamlStep_dash _ l1 h1, h1']
    rw [yamlStep_dash _ l2 h2, h2']
    rfl

/-- C5 witness: the two dash lines "- a" and "- b" (no inline key-value on
either) decode to two empty records. -/
theorem yaml_dash_empty_records_witness :
    parseYamlLines ["- a".data, "- b".data] = [.obj [], .obj []] :=
  (yaml_dash_empty_records "- a".data "- b".data rfl rfl rfl rfl).2

theorem natDigitsRev_lt (f : Nat) : ∀ n, ∀ d ∈ natDigitsRev f n, d < 10 := by
  induction f with
  | zero => intro n; simp [natDigitsRev]
  | succ f ih =>
    intro n
    cases n with
    | zero => simp [natDigitsRev]
    | succ n =>
      simp only [natDigitsRev]
      intro d hd
      rcases List.mem_cons.mp hd with rfl | hd
      · exact Nat.mod_lt _ (by omega)
      · exact ih _ d hd

/-- The number denoted by a little-endian digit list. -/
def ofRevDigits : List Nat → Nat
  | [] => 0
  | d :: t => d + 10 * ofRevDigits t

theorem natDigitsRev_val (f : Nat) : ∀ n, n ≤ f →
    ofRevDigits (natDigitsRev f n) = n := by
  induction f with
  | zero =>
    intro n h
    have : n = 0 := by omega
    subst this
    rfl
  | succ f ih =>
    intro n h
    cases n with
    | zero => rfl
    | succ n =>
      simp only [natDigitsRev, ofRevDigits]
      rw [ih ((n + 1) / 10) (by omega)]
      omega

theorem digVal_digitChar : ∀ d, d < 10 → digVal (digitChar d) = d := by decide

theorem digitChar_isDigit : ∀ d, d < 10 → (digitChar d).isDigit = true := by
  decide

theorem digitsVal_eq (ds : List Nat) (h : ∀ d ∈ ds, d < 10) : ∀ a : Nat,
    List.foldl (fun x c => x * 10 + digVal c) a ((ds.map digitChar).reverse) =
      a * 10 ^ ds.length + ofRevDigits ds := by
  induction ds with
  | nil => intro a; simp [ofRevDigits]
  | cons d t ih =>
    intro a
    simp only [List.map_cons, List.reverse_cons, List.foldl_append,
      List.foldl_cons, List.foldl_nil]
    rw [ih (fun x hx => h x (List.mem_cons_of_mem _ hx)) a]
    rw [digVal_digitChar d (h d (List.mem_cons_self _ _))]
    simp only [ofRevDigits, List.length_cons, Nat.pow_succ]
    ring

theorem digitsVal_renderNat (n : Nat) : digitsVal (renderNat n) = n := by
  by_cases h : n = 0
  · subst h
    rfl
  · unfold renderNat digitsVal
    rw [if_neg h, digitsVal_eq _ (natDigitsRev_lt n n) 0,
      natDigitsRev_val n n le_rfl]
    simp

theorem renderNat_digits (n : Nat) : ∀ c ∈ renderNat n, c.isDigit = true := by
  unfold renderNat
  split
  · simp
  · intro c hc
    rw [List.mem_reverse] at hc
    obtain ⟨d, hd, rfl⟩ := List.mem_map.mp hc
    exact digitChar_isDigit d (natDigitsRev_lt n n d hd)

theorem natDigitsRev_ne_nil (f n : Nat) (h1 : 1 ≤ n) (h2 : n ≤ f) :
    natDigitsRev f n ≠ [] := by
  cases f with
  | zero => omega
  | succ f =>
    cases n with
    | zero => omega
    | succ n => simp [natDigitsRev]

theorem renderNat_ne_nil (n : Nat) : renderNat n ≠ [] := by
  unfold renderNat
  split
  · simp
  · simp only [ne_eq, List.reverse_eq_nil_iff, List.map_eq_nil_iff]
    exact natDigitsRev_ne_nil n n (by omega) le_rfl

theorem natDigitsRev_getLast? (f : Nat) : ∀ n, 1 ≤ n → n ≤ f →
    ∃ d, (natDigitsRev f n).getLast? = some d ∧ 1 ≤ d ∧ d < 10 := by
  induction f with
  | zero => intro n h1 h2; omega
  | succ f ih =>
    intro n h1 h2
    cases n with
    | zero => omega
    | succ n =>
      simp only [natDigitsRev]
      by_cases h10 : (n + 1) / 10 = 0
      · have hz : natDigitsRev f ((n + 1) / 10) = [] := by
          rw [h10]
          cases f <;> rfl
        rw [hz]
        exact ⟨(n + 1) % 10, rfl, by omega, by omega⟩
      · obtain ⟨d, hd, h1d, h2d⟩ := ih ((n + 1) / 10) (by omega) (by omega)
        refine ⟨d, ?_, h1d, h2d⟩
        rcases hinner : natDigitsRev f ((n + 1) / 10) with _ | ⟨b, l⟩
        · rw [hinner] at hd
          simp at hd
        · rw [hinner] at hd
          rw [List.getLast?_cons_cons]
          exact hd

theorem digitChar_ne_zero : ∀ d, 1 ≤ d → d < 10 → digitChar d ≠ '0' := by
  decide

theorem renderNat_head?_ne_zero (n : Nat) (h : n ≠ 0) :
    ∃ c, (renderNat n).head? = some c ∧ c ≠ '0' := by
  unfold renderNat
  rw [if_neg h]
  obtain ⟨d, hd, h1d, h2d⟩ := natDigitsRev_getLast? n n (by omega) le_rfl
  refine ⟨digitChar d, ?_, ?_⟩
  · rw [List.head?_reverse, List.getLast?_map, hd]
    rfl
  · exact digitChar_ne_zero d h1d h2d

/-- The first char of `l` (if any) fails `p`. -/
def headFails (p : Char → Bool) (l : List Char) : Prop :=
  ∀ c t, l = c :: t → p c = false

theorem takeWhile_append_of (p : Char → Bool) (A B : List Char)
    (hA : ∀ a ∈ A, p a = true) (hB : headFails p B) :
    (A ++ B).takeWhile p = A := by
  induction A with
  | nil =>
    cases B with
    | nil => rfl
    | cons c t => simp [List.takeWhile_cons, hB c t rfl]
  | cons a A ih =>
    simp only [List.cons_append, List.takeWhile_cons,
      hA a (List.mem_cons_self _ _), if_true]
    rw [ih (fun x hx => hA x (List.mem_cons_of_mem _ hx))]

/-- After the matched digits, the rest of the input is untouched. -/
theorem drop_append_of (A B : List Char) : (A ++ B).drop A.length = B :=
  List.drop_left A B

theorem renderNatPad_digits (w n : Nat) :
    ∀ c ∈ renderNatPad w n, c.isDigit = true := by
  intro c hc
  unfold renderNatPad at hc
  rcases List.mem_append.mp hc with h | h
  · obtain rfl := List.eq_of_mem_replicate h
    decide
  · exact renderNat_digits n c h

theorem natDigitsRev_length_le (f : Nat) : ∀ n k, n < 10 ^ k → n ≤ f →
    (natDigitsRev f n).length ≤ k := by
  induction f with
  | zero =>
    intro n k _ h
    have : n = 0 := by omega
    subst this
    simp [natDigitsRev]
  | succ f ih =>
    intro n k hk h
    cases n with
    | zero => simp [natDigitsRev]
    | succ n =>
      cases k with
      | zero => simp at hk
      | succ k =>
        simp only [natDigitsRev, List.length_cons]
        have hdiv : (n + 1) / 10 < 10 ^ k := by
          rw [Nat.div_lt_iff_lt_mul (by omega)]
          calc n + 1 < 10 ^ (k + 1) := hk
          _ = 10 ^ k * 10 := by ring
        have := ih ((n + 1) / 10) k hdiv (by omega)
        omega

theorem renderNat_length_le (n k : Nat) (h : n < 10 ^ k) (hk : 1 ≤ k) :
    (renderNat n).length ≤ k := by
  unfold renderNat
  split
  · simpa using hk
  · simpa using natDigitsRev_length_le n n k h le_rfl

theorem renderNatPad_length (w n : Nat) (h : n < 10 ^ w) (hw : 1 ≤ w) :
    (renderNatPad w n).length = w := by
  unfold renderNatPad
  have := renderNat_length_le n w h hw
  simp only [List.length_append, List.length_replicate]
  omega

theorem digitsVal_replicate_zero (j : Nat) : ∀ A : List Char,
    digitsVal (List.replicate j '0' ++ A) = digitsVal A := by
  induction j with
  | zero => intro A; rfl
  | succ j ih =>
    intro A
    show digitsVal ('0' :: (List.replicate j '0' ++ A)) = digitsVal A
    unfold digitsVal at ih ⊢
    simp only [List.foldl_cons]
    have : (0 : Nat) * 10 + digVal '0' = 0 := by decide
    rw [this]
    exact ih A

theorem digitsVal_renderNatPad (w n : Nat) :
    digitsVal (renderNatPad w n) = n := by
  unfold renderNatPad
  rw [digitsVal_replicate_zero, digitsVal_renderNat]

/-- What may legally follow a rendered number so that the number parser
stops exactly there. -/
def numStop (l : List Char) : Prop :=
  ∀ c t, l = c :: t →
    c.isDigit = false ∧ c ≠ '.' ∧ c ≠ 'e' ∧ c ≠ 'E'

theorem isDigit_ne_of (c x : Char) (hx : x.isDigit = false)
    (h : c.isDigit = true) : c ≠ x := by
  rintro rfl
  rw [h] at hx
  exact Bool.true_eq_false.mp hx

theorem parseExpPart_stop (neg : Bool) (ip fp rest : List Char)
    (hrest : numStop rest) :
    parseExpPart neg ip fp rest = .ok (mkDecNum neg ip fp false [], rest) := by
  cases rest with
  | nil => rfl
  | cons c t =>
    obtain ⟨_, _, he, hE⟩ := hrest c t rfl
    simp [parseExpPart, he, hE]

theorem Dec.norm_eq_self (m : Int) (e : Nat) (h : e = 0 ∨ m % 10 ≠ 0) :
    Dec.norm m e = ⟨m, e⟩ := by
  cases e with
  | zero => rfl
  | succ e =>
    rcases h with h | h
    · exact absurd h (by omega)
    · simp [Dec.norm, h]

theorem renderNat_lz (n : Nat) :
    (renderNat n).length > 1 → (renderNat n).head? ≠ some '0' := by
  intro hlen
  by_cases hn : n = 0
  · subst hn
    simp [renderNat] at hlen
  · obtain ⟨c, hc, hne⟩ := renderNat_head?_ne_zero n hn
    rw [hc]
    intro h
    exact hne (Option.some.injEq _ _ ▸ h)

theorem mkDecNum_int (neg : Bool) (A : List Char) :
    mkDecNum neg A [] false [] =
      ⟨if neg then -(digitsVal A : Int) else (digitsVal A : Int), 0⟩ := by
  have h0 : digitsVal ([] : List Char) = 0 := rfl
  unfold mkDecNum
  simp [h0]

theorem mkDecNum_frac (neg : Bool) (A F : List Char) (hF : F ≠ []) :
    mkDecNum neg A F false [] =
      Dec.norm
        (if neg then -((digitsVal A * 10 ^ F.length + digitsVal F : Nat) : Int)
         else ((digitsVal A * 10 ^ F.length + digitsVal F : Nat) : Int))
        F.length := by
  have h0 : digitsVal ([] : List Char) = 0 := rfl
  have hFlen : 0 < F.length := List.length_pos.mpr hF
  unfold mkDecNum
  simp only [h0, Nat.cast_zero, neg_zero, Bool.false_eq_true, if_false,
    sub_zero]
  rw [if_neg (by exact_mod_cast Nat.not_le.mpr hFlen)]
  congr 1

theorem parseNum_eq_body (l : List Char) (h : ∀ c t, l = c :: t → c ≠ '-') :
    parseNum l = parseNumBody false l := by
  cases l with
  | nil => rfl
  | cons c t => simp [parseNum, h c t rfl]

theorem parseNumBody_int (neg : Bool) (A rest : List Char)
    (hA : ∀ c ∈ A, c.isDigit = true) (hAne : A ≠ [])
    (hlz : A.length > 1 → A.head? ≠ some '0') (hrest : numStop rest) :
    parseNumBody neg (A ++ rest) = .ok (mkDecNum neg A [] false [], rest) := by
  have hip : ((A ++ rest).takeWhile fun c => c.isDigit) = A :=
    takeWhile_append_of _ _ _ hA (fun c t ht => (hrest c t ht).1)
  simp only [parseNumBody, hip, drop_append_of]
  rw [if_neg (by simpa using hAne)]
  rw [if_neg (by
    intro hcond
    rw [Bool.and_eq_true, decide_eq_true_eq, decide_eq_true_eq] at hcond
    exact hlz hcond.1 hcond.2)]
  cases hr : rest with
  | nil => rfl
  | cons c2 t2 =>
    obtain ⟨_, hdot, _, _⟩ := hrest c2 t2 hr
    simp only [hdot, if_false]
    exact parseExpPart_stop _ _ _ _ (fun c t ht => hrest c t (hr ▸ ht))

theorem parseNumBody_frac (neg : Bool) (A F rest : List Char)
    (hA : ∀ c ∈ A, c.isDigit = true) (hAne : A ≠ [])
    (hlz : A.length > 1 → A.head? ≠ some '0')
    (hF : ∀ c ∈ F, c.isDigit = true) (hFne : F ≠ [])
    (hrest : numStop rest) :
    parseNumBody neg (A ++ '.' :: (F ++ rest)) =
      .ok (mkDecNum neg A F false [], rest) := by
  have hip : ((A ++ '.' :: (F ++ rest)).takeWhile fun c => c.isDigit) = A :=
    takeWhile_append_of _ _ _ hA (by
      intro c t ht
      obtain rfl := (List.cons.inj ht).1
      decide)
  have hFip : ((F ++ rest).takeWhile fun c => c.isDigit) = F :=
    takeWhile_append_of _ _ _ hF (fun c t ht => (hrest c t ht).1)
  simp only [parseNumBody, hip, drop_append_of]
  rw [if_neg (by simpa using hAne)]
  rw [if_neg (by
    intro hcond
    rw [Bool.and_eq_true, decide_eq_true_eq, decide_eq_true_eq] at hcond
    exact hlz hcond.1 hcond.2)]
  simp only [reduceIte, hFip, drop_append_of]
  rw [if_neg (by simpa using hFne)]
  exact parseExpPart_stop _ _ _ _ hrest

/-- `parseNum` inverts `renderDec` on canonical decimals, for any following
text a number cannot continue into. -/
theorem parseNum_renderDec (d : Dec) (hcan : d.exp = 0 ∨ d.man % 10 ≠ 0)
    (rest : List Char) (hrest : numStop rest) :
    parseNum (renderDec d ++ rest) = .ok (d, rest) := by
  obtain ⟨man, exp⟩ := d
  have hdig_nm : ∀ (n : Nat) (tail : List Char), ∀ c t,
      renderNat n ++ tail = c :: t → c ≠ '-' := by
    intro n tail c t ht
    rcases hn : renderNat n with _ | ⟨c0, t0⟩
    · exact absurd hn (renderNat_ne_nil n)
    · rw [hn, List.cons_append] at ht
      obtain ⟨rfl, -⟩ := List.cons.inj ht
      exact isDigit_ne_of c0 '-' (by decide)
        (renderNat_digits n c0 (by rw [hn]; exact List.mem_cons_self _ _))
  cases exp with
  | zero =>
    show parseNum (renderInt man ++ rest) = _
    by_cases hneg : man < 0
    · rw [show renderInt man = '-' :: renderNat man.natAbs by
        simp [renderInt, hneg]]
      rw [List.cons_append]
      rw [show parseNum ('-' :: (renderNat man.natAbs ++ rest)) =
        parseNumBody true (renderNat man.natAbs ++ rest) by simp [parseNum]]
      rw [parseNumBody_int true _ _ (renderNat_digits _) (renderNat_ne_nil _)
        (renderNat_lz _) hrest]
      rw [mkDecNum_int]
      have hm : -(man.natAbs : Int) = man := by omega
      simp [digitsVal_renderNat, hm, abs_of_neg hneg]
    · rw [show renderInt man = renderNat man.natAbs by simp [renderInt, hneg]]
      rw [parseNum_eq_body _ (hdig_nm man.natAbs rest)]
      rw [parseNumBody_int false _ _ (renderNat_digits _) (renderNat_ne_nil _)
        (renderNat_lz _) hrest]
      rw [mkDecNum_int]
      have hm : (man.natAbs : Int) = man := by omega
      simp [digitsVal_renderNat, hm, abs_of_nonneg (not_lt.mp hneg)]
  | succ e =>
    have hman10 : man % 10 ≠ 0 := by
      rcases hcan with h | h
      · simp at h
      · exact h
    set N := man.natAbs with hN
    set ex := e + 1 with hex
    have hmod : N % 10 ^ ex < 10 ^ ex := Nat.mod_lt _ (by positivity)
    have hlenF : (renderNatPad ex (N % 10 ^ ex)).length = ex :=
      renderNatPad_length ex _ hmod (by omega)
    have hFne : renderNatPad ex (N % 10 ^ ex) ≠ [] := by
      intro h
      rw [h] at hlenF
      simp at hlenF
      omega
    have hbody : ∀ neg : Bool, ((if neg then -(N : Int) else (N : Int)) = man) →
        parseNumBody neg (renderNat (N / 10 ^ ex) ++
          '.' :: (renderNatPad ex (N % 10 ^ ex) ++ rest)) =
          .ok (⟨man, ex⟩, rest) := by
      intro neg hsign
      rw [parseNumBody_frac neg _ _ _ (renderNat_digits _) (renderNat_ne_nil _)
        (renderNat_lz _) (renderNatPad_digits _ _) hFne hrest]
      rw [mkDecNum_frac neg _ _ hFne]
      rw [hlenF]
      have hbig : (digitsVal (renderNat (N / 10 ^ ex)) * 10 ^ ex +
          digitsVal (renderNatPad ex (N % 10 ^ ex)) : Nat) = N := by
        rw [digitsVal_renderNat, digitsVal_renderNatPad, Nat.mul_comm]
        exact Nat.div_add_mod N (10 ^ ex)
      rw [hbig, hsign, Dec.norm_eq_self man ex (Or.inr hman10)]
    by_cases hneg : man < 0
    · have hfr : renderDec ⟨man, ex⟩ ++ rest =
          '-' :: (renderNat (N / 10 ^ ex) ++
            '.' :: (renderNatPad ex (N % 10 ^ ex) ++ rest)) := by
        show (if ex = 0 then renderInt man else _) ++ rest = _
        rw [if_neg (by omega), if_pos hneg]
        simp [List.append_assoc]
      rw [hfr]
      rw [show parseNum ('-' :: (renderNat (N / 10 ^ ex) ++
          '.' :: (renderNatPad ex (N % 10 ^ ex) ++ rest))) =
        parseNumBody true (renderNat (N / 10 ^ ex) ++
          '.' :: (renderNatPad ex (N % 10 ^ ex) ++ rest)) by simp [parseNum]]
      exact hbody true (show -(N : Int) = man by rw [hN]; omega)
    · have hfr : renderDec ⟨man, ex⟩ ++ rest =
          renderNat (N / 10 ^ ex) ++
            '.' :: (renderNatPad ex (N % 10 ^ ex) ++ rest) := by
        show (if ex = 0 then renderInt man else _) ++ rest = _
        rw [if_neg (by omega), if_neg hneg]
        simp [List.append_assoc]
      rw [hfr]
      rw [parseNum_eq_body _ (hdig_nm (N / 10 ^ ex) _)]
      exact hbody false (show (N : Int) = man by rw [hN]; omega)

theorem hexVal_hexChar : ∀ n, n < 16 → hexVal (hexChar n) = some n := by
  decide

theorem parseStr_escape (s : List Char) : ∀ rest : List Char,
    parseStr (escapeChars s ++ '"' :: rest) = .ok (s, rest) := by
  induction s with
  | nil =>
    intro rest
    show parseStr ([] ++ '"' :: rest) = _
    rw [List.nil_append]
    simp [parseStr]
  | cons c t ih =>
    intro rest
    show parseStr (escChar c ++ escapeChars t ++ '"' :: rest) = _
    by_cases hq : c = '"'
    · subst hq
      rw [show escChar '"' = ['\\', '"'] from rfl]
      rw [show (['\\', '"'] : List Char) ++ escapeChars t ++ '"' :: rest =
        '\\' :: '"' :: (escapeChars t ++ '"' :: rest) by simp]
      simp [parseStr, parseEsc, escUnmap, ih rest]
    · by_cases hb : c = '\\'
      · subst hb
        rw [show escChar '\\' = ['\\', '\\'] from rfl]
        rw [show (['\\', '\\'] : List Char) ++ escapeChars t ++ '"' :: rest =
          '\\' :: '\\' :: (escapeChars t ++ '"' :: rest) by simp]
        simp [parseStr, parseEsc, escUnmap, ih rest]
      · by_cases h32 : c.toNat < 32
        · rw [show escChar c = ['\\', 'u', '0', '0', hexChar (c.toNat / 16),
              hexChar (c.toNat % 16)] by simp [escChar, hq, hb, h32]]
          rw [show (['\\', 'u', '0', '0', hexChar (c.toNat / 16),
              hexChar (c.toNat % 16)] : List Char) ++ escapeChars t ++
              '"' :: rest =
            '\\' :: 'u' :: '0' :: '0' :: hexChar (c.toNat / 16) ::
              hexChar (c.toNat % 16) :: (escapeChars t ++ '"' :: rest) by simp]
          have s1 : parseStr ('\\' :: ('u' :: '0' :: '0' ::
              hexChar (c.toNat / 16) :: hexChar (c.toNat % 16) ::
              (escapeChars t ++ '"' :: rest))) =
              parseEsc ('u' :: '0' :: '0' :: hexChar (c.toNat / 16) ::
                hexChar (c.toNat % 16) :: (escapeChars t ++ '"' :: rest)) := by
            rw [show parseStr ('\\' :: ('u' :: '0' :: '0' ::
              hexChar (c.toNat / 16) :: hexChar (c.toNat % 16) ::
              (escapeChars t ++ '"' :: rest))) =
              if '\\' = '"' then Except.ok ([], ('u' :: '0' :: '0' ::
                hexChar (c.toNat / 16) :: hexChar (c.toNat % 16) ::
                (escapeChars t ++ '"' :: rest)))
              else if '\\' = '\\' then parseEsc ('u' :: '0' :: '0' ::
                hexChar (c.toNat / 16) :: hexChar (c.toNat % 16) ::
                (escapeChars t ++ '"' :: rest))
              else if '\\'.toNat < 32 then Except.error Err.syntaxError
              else match parseStr ('u' :: '0' :: '0' ::
                hexChar (c.toNat / 16) :: hexChar (c.toNat % 16) ::
                (escapeChars t ++ '"' :: rest)) with
                | Except.ok (s, r) => Except.ok ('\\' :: s, r)
                | Except.error err => Except.error err
              from parseStr.eq_2 _ _]
            rw [if_neg (show ¬('\\' = '"') by decide),
              if_pos (show '\\' = '\\' from rfl)]
          have s2 : parseEsc ('u' :: '0' :: '0' :: hexChar (c.toNat / 16) ::
              hexChar (c.toNat % 16) :: (escapeChars t ++ '"' :: rest)) =
              parseU ('0' :: '0' :: hexChar (c.toNat / 16) ::
                hexChar (c.toNat % 16) :: (escapeChars t ++ '"' :: rest)) := by
            simp [parseEsc]
          have s3 : parseU ('0' :: '0' :: hexChar (c.toNat / 16) ::
              hexChar (c.toNat % 16) :: (escapeChars t ++ '"' :: rest)) =
              .ok (Char.ofNat (((0 * 16 + 0) * 16 + c.toNat / 16) * 16 +
                c.toNat % 16) :: t, rest) := by
            simp only [parseU]
            rw [show hexVal '0' = some 0 by decide,
              hexVal_hexChar (c.toNat / 16) (by omega),
              hexVal_hexChar (c.toNat % 16) (by omega), ih rest]
          rw [s1, s2, s3]
          rw [show ((0 * 16 + 0) * 16 + c.toNat / 16) * 16 + c.toNat % 16 =
            c.toNat by omega]
          rw [Char.ofNat_toNat]
        · rw [show escChar c = [c] by simp [escChar, hq, hb, h32]]
          rw [show ([c] : List Char) ++ escapeChars t ++ '"' :: rest =
            c :: (escapeChars t ++ '"' :: rest) by simp]
          simp [parseStr, hq, hb, h32, ih rest]

mutual

/-- Node count of a decoded value (used as parser fuel accounting). -/
def sizeJ : JVal → Nat
  | .null => 1
  | .bool _ => 1
  | .num _ => 1
  | .str _ => 1
  | .arr xs => 1 + sizeL xs
  | .obj fs => 1 + sizeF fs

def sizeL : List JVal → Nat
  | [] => 0
  | v :: t => 1 + sizeJ v + sizeL t

def sizeF : List (String × JVal) → Nat
  | [] => 0
  | p :: t => 1 + sizeJ p.2 + sizeF t

end

/-- Values the spec-modelled encoder represents faithfully: numbers are
canonical decimals (every JS number printed as a decimal literal is), and
object keys are distinct (JS objects cannot hold duplicates). -/
inductive Ser : JVal → Prop where
  | null : Ser .null
  | bool : ∀ b, Ser (.bool b)
  | num : ∀ d : Dec, d.exp = 0 ∨ d.man % 10 ≠ 0 → Ser (.num d)
  | str : ∀ s, Ser (.str s)
  | arr : ∀ xs, (∀ v ∈ xs, Ser v) → Ser (.arr xs)
  | obj : ∀ fs, (∀ p ∈ fs, Ser p.2) → (fs.map Prod.fst).Nodup → Ser (.obj fs)

/-- What may follow a rendered value inside a JSON document so that all the
parsers stop exactly at the value's end. -/
def jsStop (l : List Char) : Prop :=
  ∀ c t, l = c :: t → c = ',' ∨ c = ']' ∨ c = '}'

theorem jsStop_numStop (l : List Char) (h : jsStop l) : numStop l := by
  intro c t ht
  rcases h c t ht with rfl | rfl | rfl <;> exact ⟨by decide, by decide,
    by decide, by decide⟩

theorem isJWs_elim (c : Char) (h : isJWs c = true) :
    c = ' ' ∨ c = '\t' ∨ c = '\n' ∨ c = '\r' := by
  simp only [isJWs, Bool.or_eq_true, decide_eq_true_eq] at h
  tauto

theorem isDigit_not_jws (c : Char) (h : c.isDigit = true) : isJWs c = false := by
  cases hc : isJWs c
  · rfl
  · rcases isJWs_elim c hc with rfl | rfl | rfl | rfl <;> simp at h

theorem skipJWs_cons (c : Char) (l : List Char) (h : isJWs c = false) :
    skipJWs (c :: l) = c :: l := by
  simp [skipJWs, List.dropWhile_cons, h]

/-- The first character of a rendered decimal: a minus or a digit. -/
theorem renderDec_head (d : Dec) :
    ∃ c t, renderDec d = c :: t ∧ (c = '-' ∨ c.isDigit = true) := by
  obtain ⟨man, exp⟩ := d
  have hnat : ∀ n : Nat, ∃ c t, renderNat n = c :: t ∧ c.isDigit = true := by
    intro n
    rcases h : renderNat n with _ | ⟨c, t⟩
    · exact absurd h (renderNat_ne_nil n)
    · refine ⟨c, t, rfl, renderNat_digits n c ?_⟩
      rw [h]
      exact List.mem_cons_self _ _
  unfold renderDec
  by_cases hexp : exp = 0
  · subst hexp
    simp only [reduceIte]
    unfold renderInt
    by_cases hneg : man < 0
    · rw [if_pos hneg]
      exact ⟨'-', _, rfl, Or.inl rfl⟩
    · rw [if_neg hneg]
      obtain ⟨c, t, h1, h2⟩ := hnat man.natAbs
      exact ⟨c, t, h1, Or.inr h2⟩
  · rw [if_neg hexp]
    by_cases hneg : man < 0
    · rw [if_pos hneg]
      exact ⟨'-', _, rfl, Or.inl rfl⟩
    · rw [if_neg hneg]
      obtain ⟨c, t, h1, h2⟩ := hnat (man.natAbs / 10 ^ exp)
      rw [h1]
      exact ⟨c, _, rfl, Or.inr h2⟩

/-- The first character of any rendered value: never whitespace, never a
closing bracket, and never a comma. -/
theorem renderJson_head (v : JVal) :
    ∃ c t, renderJson v = c :: t ∧ isJWs c = false ∧ c ≠ ']' ∧ c ≠ '}' ∧
      c ≠ ',' := by
  cases v with
  | null => exact ⟨'n', _, rfl, by decide, by decide, by decide, by decide⟩
  | bool b =>
    cases b with
    | false => exact ⟨'f', _, rfl, by decide, by decide, by decide, by decide⟩
    | true => exact ⟨'t', _, rfl, by decide, by decide, by decide, by decide⟩
  | num d =>
    obtain ⟨c, t, h1, h2⟩ := renderDec_head d
    refine ⟨c, t, h1, ?_, ?_, ?_, ?_⟩ <;> rcases h2 with rfl | h2
    · decide
    · exact isDigit_not_jws c h2
    · decide
    · exact isDigit_ne_of c ']' (by decide) h2
    · decide
    · exact isDigit_ne_of c '}' (by decide) h2
    · decide
    · exact isDigit_ne_of c ',' (by decide) h2
  | str s => exact ⟨'"', _, rfl, by decide, by decide, by decide, by decide⟩
  | arr xs => exact ⟨'[', _, rfl, by decide, by decide, by decide, by decide⟩
  | obj fs => exact ⟨'{', _, rfl, by decide, by decide, by decide, by decide⟩

theorem parseValue_cons (fuel : Nat) (c : Char) (l : List Char)
    (hw : isJWs c = false) :
    parseValue (fuel + 1) (c :: l) =
      if c = '{' then
        if (skipJWs l).head? = some '}' then .ok (.obj [], (skipJWs l).tail)
        else if (skipJWs l).isEmpty then .error .syntaxError
        else parseMembers fuel (skipJWs l) []
      else if c = '[' then
        if (skipJWs l).head? = some ']' then .ok (.arr [], (skipJWs l).tail)
        else if (skipJWs l).isEmpty then .error .syntaxError
        else parseElems fuel (skipJWs l) []
      else if c = '"' then
        match parseStr l with
        | .ok (s, r) => .ok (.str ⟨s⟩, r)
        | .error e => .error e
      else if c = 't' then
        if "rue".data.isPrefixOf l then .ok (.bool true, l.drop 3)
        else .error .syntaxError
      else if c = 'f' then
        if "alse".data.isPrefixOf l then .ok (.bool false, l.drop 4)
        else .error .syntaxError
      else if c = 'n' then
        if "ull".data.isPrefixOf l then .ok (.null, l.drop 3)
        else .error .syntaxError
      else
        match parseNum (c :: l) with
        | .ok (d, r) => .ok (.num d, r)
        | .error e => .error e := by
  simp only [parseValue]
  rw [skipJWs_cons c l hw]

theorem setKey_append (acc : List (String × JVal)) (k : String) (v : JVal)
    (h : ∀ p ∈ acc, p.1 ≠ k) : setKey acc k v = acc ++ [(k, v)] := by
  unfold setKey
  rw [if_neg]
  simp only [List.any_eq_true, decide_eq_true_eq, not_exists]
  intro p
  rintro ⟨hp, hk⟩
  exact h p hp hk

theorem foldl_setKey (fs : List (String × JVal)) : ∀ acc,
    (∀ p ∈ fs, ∀ q ∈ acc, q.1 ≠ p.1) → (fs.map Prod.fst).Nodup →
    List.foldl (fun a p => setKey a p.1 p.2) acc fs = acc ++ fs := by
  induction fs with
  | nil => intro acc _ _; simp
  | cons p t ih =>
    intro acc hdisj hnd
    simp only [List.foldl_cons]
    rw [setKey_append acc p.1 p.2
      (fun q hq => hdisj p (List.mem_cons_self _ _) q hq)]
    have hpp : (p.1, p.2) = p := rfl
    rw [hpp]
    have hd2 : ∀ q ∈ t, ∀ r ∈ acc ++ [p], r.1 ≠ q.1 := by
      intro q hq r hr
      rcases List.mem_append.mp hr with hr2 | hr2
      · exact hdisj q (List.mem_cons_of_mem _ hq) r hr2
      · have hrp : r = p := by simpa using hr2
        subst hrp
        have hnotin : r.1 ∉ t.map Prod.fst :=
          (List.nodup_cons.mp (by simpa using hnd)).1
        intro hqr
        exact hnotin (hqr ▸ List.mem_map_of_mem Prod.fst hq)
    have hnd2 : (t.map Prod.fst).Nodup :=
      (List.nodup_cons.mp (by simpa using hnd)).2
    rw [ih (acc ++ [p]) hd2 hnd2]
    simp

theorem sizeJ_pos (v : JVal) : 1 ≤ sizeJ v := by
  cases v <;> simp [sizeJ]

theorem jsStop_renderTailJ (xs : List JVal) (rest : List Char) :
    jsStop (renderTailJ xs ++ ']' :: rest) := by
  intro c t h
  cases xs with
  | nil =>
    rw [show renderTailJ [] = [] from rfl, List.nil_append] at h
    exact Or.inr (Or.inl (List.cons.inj h.symm).1)
  | cons y ys =>
    rw [show renderTailJ (y :: ys) = ',' :: (renderJson y ++ renderTailJ ys)
      from rfl, List.cons_append] at h
    exact Or.inl (List.cons.inj h.symm).1

theorem jsStop_renderFTailJ (fs : List (String × JVal)) (rest : List Char) :
    jsStop (renderFTailJ fs ++ '}' :: rest) := by
  intro c t h
  cases fs with
  | nil =>
    rw [show renderFTailJ [] = [] from rfl, List.nil_append] at h
    exact Or.inr (Or.inr (List.cons.inj h.symm).1)
  | cons p ps =>
    obtain ⟨k, v⟩ := p
    rw [show renderFTailJ ((k, v) :: ps) = ',' :: ('"' :: escapeChars k.data ++
      '"' :: ':' :: renderJson v ++ renderFTailJ ps) from rfl,
      List.cons_append] at h
    exact Or.inl (List.cons.inj h.symm).1

theorem numHead_ne (c : Char) (h : c = '-' ∨ c.isDigit = true) :
    c ≠ '{' ∧ c ≠ '[' ∧ c ≠ '"' ∧ c ≠ 't' ∧ c ≠ 'f' ∧ c ≠ 'n' := by
  rcases h with rfl | h
  · exact ⟨by decide, by decide, by decide, by decide, by decide, by decide⟩
  · exact ⟨isDigit_ne_of c '{' (by decide) h, isDigit_ne_of c '[' (by decide) h,
      isDigit_ne_of c '"' (by decide) h, isDigit_ne_of c 't' (by decide) h,
      isDigit_ne_of c 'f' (by decide) h, isDigit_ne_of c 'n' (by decide) h⟩

theorem isPrefixOf_append_self (A B : List Char) :
    A.isPrefixOf (A ++ B) = true :=
  List.isPrefixOf_iff_prefix.mpr ⟨B, rfl⟩

/-- The three mutual parsers invert the three mutual renderers, given
enough fuel: the heart of the round-trip property. -/
theorem parse_render_all : ∀ fuel : Nat,
    (∀ v rest, Ser v → sizeJ v ≤ fuel → jsStop rest →
      parseValue fuel (renderJson v ++ rest) = .ok (v, rest)) ∧
    (∀ x xs rest acc, (∀ u ∈ x :: xs, Ser u) → sizeL (x :: xs) ≤ fuel →
      jsStop rest →
      parseElems fuel (renderJson x ++ (renderTailJ xs ++ ']' :: rest)) acc =
        .ok (.arr (acc ++ x :: xs), rest)) ∧
    (∀ k v fs rest acc, (∀ p ∈ (k, v) :: fs, Ser p.2) →
      sizeF ((k, v) :: fs) ≤ fuel → jsStop rest →
      parseMembers fuel ('"' :: (escapeChars k.data ++ '"' :: ':' ::
          (renderJson v ++ (renderFTailJ fs ++ '}' :: rest)))) acc =
        .ok (.obj (List.foldl (fun a p => setKey a p.1 p.2) acc
          ((k, v) :: fs)), rest)) := by
  intro fuel
  induction fuel with
  | zero =>
    refine ⟨?_, ?_, ?_⟩
    · intro v rest _ hsz _
      exact absurd hsz (by have := sizeJ_pos v; omega)
    · intro x xs rest acc _ hsz _
      exact absurd hsz (by simp only [sizeL]; omega)
    · intro k v fs rest acc _ hsz _
      exact absurd hsz (by simp only [sizeF]; omega)
  | succ fuel ih =>
    obtain ⟨ihV, ihE, ihM⟩ := ih
    refine ⟨?_, ?_, ?_⟩
    · -- values
      intro v rest hser hsz hstop
      cases v with
      | null =>
        rw [show renderJson JVal.null = ['n', 'u', 'l', 'l'] by decide]
        simp only [List.cons_append, List.nil_append]
        rw [parseValue_cons fuel 'n' _ (by decide)]
        rw [if_neg (show ¬('n' = '{') by decide),
          if_neg (show ¬('n' = '[') by decide),
          if_neg (show ¬('n' = '"') by decide),
          if_neg (show ¬('n' = 't') by decide),
          if_neg (show ¬('n' = 'f') by decide), if_pos rfl]
        have hk : ("ull".data.isPrefixOf ('u' :: 'l' :: 'l' :: rest)) = true := by
          rw [show "ull".data = ['u', 'l', 'l'] by decide]
          exact isPrefixOf_append_self ['u', 'l', 'l'] rest
        rw [if_pos hk]
        simp
      | bool b =>
        cases b with
        | true =>
          rw [show renderJson (JVal.bool true) = ['t', 'r', 'u', 'e'] by decide]
          simp only [List.cons_append, List.nil_append]
          rw [parseValue_cons fuel 't' _ (by decide)]
          rw [if_neg (show ¬('t' = '{') by decide),
            if_neg (show ¬('t' = '[') by decide),
            if_neg (show ¬('t' = '"') by decide), if_pos rfl]
          have hk : ("rue".data.isPrefixOf ('r' :: 'u' :: 'e' :: rest)) = true := by
            rw [show "rue".data = ['r', 'u', 'e'] by decide]
            exact isPrefixOf_append_self ['r', 'u', 'e'] rest
          rw [if_pos hk]
          simp
        | false =>
          rw [show renderJson (JVal.bool false) =
            ['f', 'a', 'l', 's', 'e'] by decide]
          simp only [List.cons_append, List.nil_append]
          rw [parseValue_cons fuel 'f' _ (by decide)]
          rw [if_neg (show ¬('f' = '{') by decide),
            if_neg (show ¬('f' = '[') by decide),
            if_neg (show ¬('f' = '"') by decide),
            if_neg (show ¬('f' = 't') by decide), if_pos rfl]
          have hk : ("alse".data.isPrefixOf ('a' :: 'l' :: 's' :: 'e' :: rest)) = true := by
            rw [show "alse".data = ['a', 'l', 's', 'e'] by decide]
            exact isPrefixOf_append_self ['a', 'l', 's', 'e'] rest
          rw [if_pos hk]
          simp
      | num d =>
        have hcan : d.exp = 0 ∨ d.man % 10 ≠ 0 := by
          cases hser with
          | num d h => exact h
        obtain ⟨c, tl, hd, hsign⟩ := renderDec_head d
        obtain ⟨hn1, hn2, hn3, hn4, hn5, hn6⟩ := numHead_ne c hsign
        have hw : isJWs c = false := by
          rcases hsign with rfl | hdg
          · decide
          · exact isDigit_not_jws c hdg
        rw [show renderJson (JVal.num d) = renderDec d from rfl, hd,
          List.cons_append]
        rw [parseValue_cons fuel c _ hw]
        rw [if_neg hn1, if_neg hn2, if_neg hn3, if_neg hn4, if_neg hn5,
          if_neg hn6]
        rw [← List.cons_append, ← hd,
          parseNum_renderDec d hcan rest (jsStop_numStop rest hstop)]
      | str s =>
        rw [show renderJson (JVal.str s) =
          '"' :: (escapeChars s.data ++ ['"']) from rfl, List.cons_append]
        rw [parseValue_cons fuel '"' _ (by decide)]
        rw [if_neg (by decide), if_neg (by decide), if_pos rfl]
        rw [show (escapeChars s.data ++ ['"']) ++ rest =
          escapeChars s.data ++ '"' :: rest by simp]
        rw [parseStr_escape s.data rest]
      | arr xs =>
        have hall : ∀ u ∈ xs, Ser u := by
          cases hser with
          | arr xs h => exact h
        cases xs with
        | nil =>
          rw [show renderJson (JVal.arr []) = ['[', ']'] from rfl]
          simp only [List.cons_append, List.nil_append]
          rw [parseValue_cons fuel '[' _ (by decide)]
          rw [if_neg (by decide), if_pos rfl, skipJWs_cons ']' _ (by decide)]
          rw [if_pos (show ((']' :: rest).head? = some (']' : Char)) from rfl)]
          rfl
        | cons x t =>
          rw [show renderJson (JVal.arr (x :: t)) ++ rest =
            '[' :: (renderJson x ++ (renderTailJ t ++ ']' :: rest)) by
              show ('[' :: (renderElemsJ (x :: t) ++ [']'])) ++ rest = _
              simp [renderElemsJ, List.append_assoc]]
          rw [parseValue_cons fuel '[' _ (by decide)]
          rw [if_neg (by decide), if_pos rfl]
          obtain ⟨c, tl, hh, hw, hne1, hne2, hne3⟩ := renderJson_head x
          rw [hh, List.cons_append, skipJWs_cons c _ hw]
          rw [if_neg (by simp [hne1]), if_neg (by simp)]
          rw [← List.cons_append, ← hh]
          rw [ihE x t rest [] hall (by simp [sizeJ, sizeL] at hsz ⊢; omega)
            hstop]
          simp
      | obj fs =>
        have hall : ∀ p ∈ fs, Ser p.2 := by
          cases hser with
          | obj fs h _ => exact h
        have hnd : (fs.map Prod.fst).Nodup := by
          cases hser with
          | obj fs _ h => exact h
        cases fs with
        | nil =>
          rw [show renderJson (JVal.obj []) = ['{', '}'] from rfl]
          simp only [List.cons_append, List.nil_append]
          rw [parseValue_cons fuel '{' _ (by decide)]
          rw [if_pos rfl, skipJWs_cons '}' _ (by decide)]
          rw [if_pos (show (('}' :: rest).head? = some ('}' : Char)) from rfl)]
          rfl
        | cons p t =>
          obtain ⟨k, v⟩ := p
          rw [show renderJson (JVal.obj ((k, v) :: t)) ++ rest =
            '{' :: ('"' :: (escapeChars k.data ++ '"' :: ':' ::
              (renderJson v ++ (renderFTailJ t ++ '}' :: rest)))) by
              show ('{' :: (renderFieldsJ ((k, v) :: t) ++ ['}'])) ++ rest = _
              show ('{' :: (('"' :: escapeChars k.data ++ '"' :: ':' ::
                renderJson v ++ renderFTailJ t) ++ ['}'])) ++ rest = _
              simp [List.append_assoc]]
          rw [parseValue_cons fuel '{' _ (by decide)]
          rw [if_pos rfl, skipJWs_cons '"' _ (by decide)]
          rw [if_neg (by simp), if_neg (by simp)]
          rw [ihM k v t rest [] hall (by simp [sizeJ, sizeF] at hsz ⊢; omega)
            hstop]
          rw [foldl_setKey ((k, v) :: t) [] (by simp) hnd]
          rw [List.nil_append]
    · -- array elements
      intro x xs rest acc hall hsz hstop
      simp only [parseElems]
      rw [ihV x (renderTailJ xs ++ ']' :: rest)
        (hall x (List.mem_cons_self _ _))
        (by simp [sizeL] at hsz; omega) (jsStop_renderTailJ xs rest)]
      cases xs with
      | nil => rfl
      | cons y ys =>
        show parseElems fuel ((renderJson y ++ renderTailJ ys) ++ ']' :: rest)
          (acc ++ [x]) = _
        rw [List.append_assoc]
        rw [ihE y ys rest (acc ++ [x])
          (fun u hu => hall u (List.mem_cons_of_mem _ hu))
          (by simp [sizeL] at hsz ⊢; omega) hstop]
        simp
    · -- object members
      intro k v fs rest acc hall hsz hstop
      simp only [parseMembers]
      rw [skipJWs_cons '"' _ (by decide), List.head?_cons, List.tail_cons,
        if_pos rfl]
      rw [parseStr_escape k.data (':' ::
        (renderJson v ++ (renderFTailJ fs ++ '}' :: rest)))]
      show Except.bind (parseValue fuel
          (renderJson v ++ (renderFTailJ fs ++ '}' :: rest)))
        (fun vr =>
          if (skipJWs vr.2).head? = some ',' then
            parseMembers fuel (skipJWs vr.2).tail (setKey acc k vr.1)
          else if (skipJWs vr.2).head? = some '}' then
            Except.ok (JVal.obj (setKey acc k vr.1), (skipJWs vr.2).tail)
          else Except.error Err.syntaxError) = _
      rw [ihV v (renderFTailJ fs ++ '}' :: rest)
        (hall (k, v) (List.mem_cons_self _ _))
        (by simp [sizeF] at hsz; omega) (jsStop_renderFTailJ fs rest)]
      cases fs with
      | nil => rfl
      | cons q t =>
        obtain ⟨k2, v2⟩ := q
        show parseMembers fuel (('"' :: escapeChars k2.data ++ '"' :: ':' ::
          renderJson v2 ++ renderFTailJ t) ++ '}' :: rest)
          (setKey acc k v) = _
        rw [show ('"' :: escapeChars k2.data ++ '"' :: ':' ::
            renderJson v2 ++ renderFTailJ t) ++ '}' :: rest =
          '"' :: (escapeChars k2.data ++ '"' :: ':' ::
            (renderJson v2 ++ (renderFTailJ t ++ '}' :: rest))) by
            simp [List.append_assoc]]
        rw [ihM k2 v2 t rest (setKey acc k v)
          (fun p hp => hall p (List.mem_cons_of_mem _ hp))
          (by simp [sizeF] at hsz ⊢; omega) hstop]
        rfl
theorem size_le_render : ∀ n : Nat,
    (∀ v, sizeJ v ≤ n → sizeJ v ≤ (renderJson v).length) ∧
    (∀ xs, sizeL xs ≤ n → sizeL xs ≤ (renderTailJ xs).length) ∧
    (∀ fs, sizeF fs ≤ n → sizeF fs ≤ (renderFTailJ fs).length) := by
  intro n
  induction n with
  | zero =>
    refine ⟨?_, ?_, ?_⟩
    · intro v h
      exact absurd h (by have := sizeJ_pos v; omega)
    · intro xs h
      cases xs with
      | nil => decide
      | cons x t => simp only [sizeL] at h; omega
    · intro fs h
      cases fs with
      | nil => decide
      | cons p t => simp only [sizeF] at h; omega
  | succ n ih =>
    obtain ⟨ihV, ihL, ihF⟩ := ih
    refine ⟨?_, ?_, ?_⟩
    · intro v h
      cases v with
      | null => decide
      | bool b => cases b <;> decide
      | num d =>
        obtain ⟨c, t, hct, _⟩ := renderDec_head d
        simp [sizeJ, renderJson, hct]
      | str s =>
        show 1 ≤ (('"' :: escapeChars s.data) ++ ['"']).length
        simp
      | arr xs =>
        have hsub : sizeL xs ≤ n := by simp only [sizeJ] at h; omega
        have hxs := ihL xs hsub
        cases xs with
        | nil => decide
        | cons y t =>
          simp only [sizeJ, sizeL, renderJson, renderElemsJ, renderTailJ,
            List.length_cons, List.length_append] at hxs ⊢
          omega
      | obj fs =>
        have hsub : sizeF fs ≤ n := by simp only [sizeJ] at h; omega
        have hfs := ihF fs hsub
        cases fs with
        | nil => decide
        | cons p t =>
          obtain ⟨k, v⟩ := p
          simp only [sizeJ, sizeF, renderJson, renderFieldsJ, renderFTailJ,
            List.length_cons, List.length_append] at hfs ⊢
          omega
    · intro xs h
      cases xs with
      | nil => decide
      | cons y t =>
        have h1 : sizeJ y ≤ n := by simp only [sizeL] at h; omega
        have h2 : sizeL t ≤ n := by
          simp only [sizeL] at h
          have := sizeJ_pos y
          omega
        have hy := ihV y h1
        have ht := ihL t h2
        simp only [sizeL, renderTailJ, List.length_cons,
          List.length_append] at *
        omega
    · intro fs h
      cases fs with
      | nil => decide
      | cons p t =>
        obtain ⟨k, v⟩ := p
        have h1 : sizeJ v ≤ n := by simp only [sizeF] at h; omega
        have h2 : sizeF t ≤ n := by
          simp only [sizeF] at h
          have := sizeJ_pos v
          omega
        have hv := ihV v h1
        have ht := ihF t h2
        simp only [sizeF, renderFTailJ, List.length_cons,
          List.length_append] at *
        omega

theorem sizeJ_le_renderJson (v : JVal) : sizeJ v ≤ (renderJson v).length :=
  (size_le_render (sizeJ v)).1 v le_rfl

/-- With the fuel `jsonParse` supplies, parsing inverts rendering on every
serializable value. -/
theorem jsonParse_render (v : JVal) (h : Ser v) :
    jsonParse ⟨renderJson v⟩ = .ok v := by
  have hp := (parse_render_all ((renderJson v).length + 1)).1 v []
    h (by have := sizeJ_le_renderJson v; omega)
    (fun c t ht => nomatch ht)
  rw [List.append_nil] at hp
  simp [jsonParse, hp, skipJWs]

theorem strOrDefault_str (s d : String) (h : ¬s = "") :
    strOrDefault (some (.str s)) d = s := by
  simp [strOrDefault, truthy, jsToString, h]

theorem strOrDefault_desc (s : String) :
    strOrDefault (some (.str s)) "" = s := by
  by_cases h : s = "" <;> simp [strOrDefault, truthy, jsToString, h]

theorem strOrDefault2_str (s : String) (b : Option JVal) (d : String)
    (h : ¬s = "") : strOrDefault2 (some (.str s)) b d = s := by
  simp [strOrDefault2, truthy, jsToString, h]

theorem validateStatus_statusString (st : ModelStatus) :
    validateStatus (some (.str (statusString st))) = st := by
  cases st <;> rfl

theorem metricsGroup_inv (g : Metrics) :
    (⟨numProp (getProp (.obj (optField "accuracy" (g.accuracy.map .num) ++
        optField "latency" (g.latency.map .num))) "accuracy"),
      numProp (getProp (.obj (optField "accuracy" (g.accuracy.map .num) ++
        optField "latency" (g.latency.map .num))) "latency")⟩ : Metrics)
      = g := by
  obtain ⟨a, l⟩ := g
  cases a <;> cases l <;> rfl

theorem filesGroup_inv (f : ModelFiles) :
    (⟨strProp (getProp (.obj (optField "modelCard" (f.modelCard.map .str) ++
        optField "trainingScript" (f.trainingScript.map .str) ++
        optField "featureScript" (f.featureScript.map .str) ++
        optField "inferenceScript" (f.inferenceScript.map .str) ++
        optField "modelFile" (f.modelFile.map .str))) "modelCard"),
      strProp (getProp (.obj (optField "modelCard" (f.modelCard.map .str) ++
        optField "trainingScript" (f.trainingScript.map .str) ++
        optField "featureScript" (f.featureScript.map .str) ++
        optField "inferenceScript" (f.inferenceScript.map .str) ++
        optField "modelFile" (f.modelFile.map .str))) "trainingScript"),
      strProp (getProp (.obj (optField "modelCard" (f.modelCard.map .str) ++
        optField "trainingScript" (f.trainingScript.map .str) ++
        optField "featureScript" (f.featureScript.map .str) ++
        optField "inferenceScript" (f.inferenceScript.map .str) ++
        optField "modelFile" (f.modelFile.map .str))) "featureScript"),
      strProp (getProp (.obj (optField "modelCard" (f.modelCard.map .str) ++
        optField "trainingScript" (f.trainingScript.map .str) ++
        optField "featureScript" (f.featureScript.map .str) ++
        optField "inferenceScript" (f.inferenceScript.map .str) ++
        optField "modelFile" (f.modelFile.map .str))) "inferenceScript"),
      strProp (getProp (.obj (optField "modelCard" (f.modelCard.map .str) ++
        optField "trainingScript" (f.trainingScript.map .str) ++
        optField "featureScript" (f.featureScript.map .str) ++
        optField "inferenceScript" (f.inferenceScript.map .str) ++
        optField "modelFile" (f.modelFile.map .str))) "modelFile")⟩
      : ModelFiles) = f := by
  obtain ⟨f1, f2, f3, f4, f5⟩ := f
  cases f1 <;> cases f2 <;> cases f3 <;> cases f4 <;> cases f5 <;> rfl

/-- Canonical-decimal check for an optional metrics group. -/
def metricsCanonB : Option Metrics → Bool
  | none => true
  | some g =>
    (g.accuracy.all fun d => decide (d.exp = 0) || decide (d.man % 10 ≠ 0)) &&
    (g.latency.all fun d => decide (d.exp = 0) || decide (d.man % 10 ≠ 0))

/-- A Model the encoder/decoder round trip reproduces exactly: the scalar
fields other than the description are nonempty (a falsy encoded value would
be replaced by its default on decode), and any metric values are canonical
decimals. -/
def goodModelB (m : Model) : Bool :=
  (m.id != "") && (m.name != "") && (m.version != "") &&
  (m.framework != "") && (m.owner != "") && (m.createdAt != "") &&
  (m.updatedAt != "") && metricsCanonB m.metrics

theorem normalizeFields_inv (m : Model) (idx : Nat) (now : String)
    (h : goodModelB m = true) :
    normalizeFields (modelToJVal m) idx now = m := by
  obtain ⟨id, name, ver, desc, fw, st, ow, ca, ua, mo, fi⟩ := m
  simp only [goodModelB, Bool.and_eq_true, bne_iff_ne, ne_eq] at h
  obtain ⟨⟨⟨⟨⟨⟨⟨hid, hname⟩, hver⟩, hfw⟩, how⟩, hca⟩, hua⟩, -⟩ := h
  simp only [normalizeFields, Model.mk.injEq]
  refine ⟨?_, ?_, ?_, ?_, ?_, ?_, ?_, ?_, ?_, ?_, ?_⟩
  · rw [show getProp (modelToJVal ⟨id, name, ver, desc, fw, st, ow, ca, ua,
      mo, fi⟩) "id" = some (.str id) from rfl]
    exact strOrDefault_str _ _ hid
  · rw [show getProp (modelToJVal ⟨id, name, ver, desc, fw, st, ow, ca, ua,
      mo, fi⟩) "name" = some (.str name) from rfl]
    exact strOrDefault_str _ _ hname
  · rw [show getProp (modelToJVal ⟨id, name, ver, desc, fw, st, ow, ca, ua,
      mo, fi⟩) "version" = some (.str ver) from rfl]
    exact strOrDefault_str _ _ hver
  · rw [show getProp (modelToJVal ⟨id, name, ver, desc, fw, st, ow, ca, ua,
      mo, fi⟩) "description" = some (.str desc) from rfl]
    exact strOrDefault_desc _
  · rw [show getProp (modelToJVal ⟨id, name, ver, desc, fw, st, ow, ca, ua,
      mo, fi⟩) "framework" = some (.str fw) from rfl]
    exact strOrDefault_str _ _ hfw
  · rw [show getProp (modelToJVal ⟨id, name, ver, desc, fw, st, ow, ca, ua,
      mo, fi⟩) "status" = some (.str (statusString st)) from rfl]
    exact validateStatus_statusString st
  · rw [show getProp (modelToJVal ⟨id, name, ver, desc, fw, st, ow, ca, ua,
      mo, fi⟩) "owner" = some (.str ow) from rfl]
    exact strOrDefault_str _ _ how
  · rw [show getProp (modelToJVal ⟨id, name, ver, desc, fw, st, ow, ca, ua,
      mo, fi⟩) "createdAt" = some (.str ca) from rfl]
    exact strOrDefault2_str _ _ _ hca
  · rw [show getProp (modelToJVal ⟨id, name, ver, desc, fw, st, ow, ca, ua,
      mo, fi⟩) "updatedAt" = some (.str ua) from rfl]
    exact strOrDefault2_str _ _ _ hua
  · rw [show getProp (modelToJVal ⟨id, name, ver, desc, fw, st, ow, ca, ua,
      mo, fi⟩) "metrics" = mo.map (fun g =>
        .obj (optField "accuracy" (g.accuracy.map .num) ++
          optField "latency" (g.latency.map .num))) by
      cases mo <;> cases fi <;> rfl]
    cases mo with
    | none => rfl
    | some g => exact congrArg some (metricsGroup_inv g)
  · rw [show getProp (modelToJVal ⟨id, name, ver, desc, fw, st, ow, ca, ua,
      mo, fi⟩) "files" = fi.map (fun f =>
        .obj (optField "modelCard" (f.modelCard.map .str) ++
          optField "trainingScript" (f.trainingScript.map .str) ++
          optField "featureScript" (f.featureScript.map .str) ++
          optField "inferenceScript" (f.inferenceScript.map .str) ++
          optField "modelFile" (f.modelFile.map .str))) by
      cases mo <;> cases fi <;> rfl]
    cases fi with
    | none => rfl
    | some f => exact congrArg some (filesGroup_inv f)

theorem optField_str_mem (k : String) (o : Option String) (q : String × JVal)
    (hq : q ∈ optField k (Option.map .str o)) : ∃ s, q.2 = JVal.str s := by
  cases o with
  | none => simp [optField] at hq
  | some s =>
    simp only [Option.map_some', optField, List.mem_singleton] at hq
    exact ⟨s, by rw [hq]⟩

theorem Ser_metricsObj (g : Metrics)
    (hacc : ∀ d, g.accuracy = some d → d.exp = 0 ∨ d.man % 10 ≠ 0)
    (hlat : ∀ d, g.latency = some d → d.exp = 0 ∨ d.man % 10 ≠ 0) :
    Ser (.obj (optField "accuracy" (g.accuracy.map .num) ++
      optField "latency" (g.latency.map .num))) := by
  obtain ⟨a, l⟩ := g
  refine Ser.obj _ ?_ ?_
  · intro q hq
    rcases List.mem_append.mp hq with h1 | h2
    · cases a with
      | none => simp [optField] at h1
      | some d =>
        simp only [Option.map_some', optField, List.mem_singleton] at h1
        rw [h1]
        exact Ser.num d (hacc d rfl)
    · cases l with
      | none => simp [optField] at h2
      | some d =>
        simp only [Option.map_some', optField, List.mem_singleton] at h2
        rw [h2]
        exact Ser.num d (hlat d rfl)
  · cases a <;> cases l <;> simp [optField, List.nodup_cons]

theorem Ser_filesObj (f : ModelFiles) :
    Ser (.obj (optField "modelCard" (f.modelCard.map .str) ++
      optField "trainingScript" (f.trainingScript.map .str) ++
      optField "featureScript" (f.featureScript.map .str) ++
      optField "inferenceScript" (f.inferenceScript.map .str) ++
      optField "modelFile" (f.modelFile.map .str))) := by
  refine Ser.obj _ ?_ ?_
  · intro q hq
    have : ∃ s, q.2 = JVal.str s := by
      rcases List.mem_append.mp hq with h | h5
      · rcases List.mem_append.mp h with h | h4
        · rcases List.mem_append.mp h with h | h3
          · rcases List.mem_append.mp h with h1 | h2
            · exact optField_str_mem _ _ _ h1
            · exact optField_str_mem _ _ _ h2
          · exact optField_str_mem _ _ _ h3
        · exact optField_str_mem _ _ _ h4
      · exact optField_str_mem _ _ _ h5
    obtain ⟨s, hs⟩ := this
    rw [hs]
    exact Ser.str s
  · obtain ⟨f1, f2, f3, f4, f5⟩ := f
    cases f1 <;> cases f2 <;> cases f3 <;> cases f4 <;> cases f5 <;>
      simp [optField, List.nodup_cons]

theorem Ser_modelToJVal (m : Model) (h : goodModelB m = true) :
    Ser (modelToJVal m) := by
  obtain ⟨id, name, ver, desc, fw, st, ow, ca, ua, mo, fi⟩ := m
  simp only [goodModelB, Bool.and_eq_true, bne_iff_ne, ne_eq] at h
  have hmet := h.2
  refine Ser.obj _ ?_ ?_
  · intro p hp
    rcases List.mem_append.mp hp with h9A | hB
    · rcases List.mem_append.mp h9A with h9 | hA
      · simp only [List.mem_cons, List.not_mem_nil, or_false] at h9
        rcases h9 with rfl | rfl | rfl | rfl | rfl | rfl | rfl | rfl | rfl <;>
          exact Ser.str _
      · cases mo with
        | none => simp [optField] at hA
        | some g =>
          simp only [Option.map_some', optField, List.mem_singleton] at hA
          rw [hA]
          simp only [metricsCanonB, Bool.and_eq_true] at hmet
          refine Ser_metricsObj g ?_ ?_
          · intro d hd
            have ha := hmet.1
            rw [hd] at ha
            simp only [Option.all_some, Bool.or_eq_true,
              decide_eq_true_eq] at ha
            exact ha
          · intro d hd
            have hl := hmet.2
            rw [hd] at hl
            simp only [Option.all_some, Bool.or_eq_true,
              decide_eq_true_eq] at hl
            exact hl
    · cases fi with
      | none => simp [optField] at hB
      | some f =>
        simp only [Option.map_some', optField, List.mem_singleton] at hB
        rw [hB]
        exact Ser_filesObj f
  · cases mo <;> cases fi <;> simp [optField, List.nodup_cons]

theorem normalizeList_map : ∀ (ms : List Model) (idx : Nat) (now : String),
    (∀ m ∈ ms, goodModelB m = true) →
    normalizeList idx (ms.map modelToJVal) now = .ok ms := by
  intro ms
  induction ms with
  | nil => intro idx now _; rfl
  | cons m t ih =>
    intro idx now h
    have hA : normalizeModel (modelToJVal m) idx now = .ok m := by
      show Except.ok (normalizeFields (modelToJVal m) idx now) = _
      rw [normalizeFields_inv m idx now (h m (List.mem_cons_self m t))]
    have ht := ih (idx + 1) now (fun u hu => h u (List.mem_cons_of_mem m hu))
    simp only [List.map_cons, normalizeList, hA, ht]
/-- C9: the amended round-trip. Encoding a list of Models whose
always-present scalar fields other than the description are nonempty and
whose metric values are canonical decimals into the strict (JSON-array)
format, and decoding that text through the Remote Config Client path
(`parseConfigFile` with a non-YAML extension, which normalizes each
element), returns exactly the original list — no drift in any field. -/
theorem models_roundtrip (ms : List Model) (path now : String)
    (hpath : isYamlPath path = false)
    (hgood : ∀ m ∈ ms, goodModelB m = true) :
    parseConfigFile (encodeModels ms) path now = .ok ms := by
  have hser : Ser (.arr (ms.map modelToJVal)) := by
    refine Ser.arr _ ?_
    intro v hv
    simp only [List.mem_map] at hv
    obtain ⟨m, hm, rfl⟩ := hv
    exact Ser_modelToJVal m (hgood m hm)
  have hjp : jsonParse (encodeModels ms) = .ok (.arr (ms.map modelToJVal)) :=
    jsonParse_render _ hser
  simp only [parseConfigFile, hpath, Bool.false_eq_true, if_false, hjp,
    parseConfigData]
  exact normalizeList_map ms 0 now hgood

/-- The canonical Model produced by normalizing the record
`{"name": []}`: an empty array is truthy, and `String([])` is `""`, so the
normalizer emits a Model whose name is the empty string. -/
def driftModel : Model := normalizeFields (.obj [("name", .arr [])]) 0 "T0"

set_option maxRecDepth 100000 in
/-- C9 counterexample to the claim as stated: `driftModel` is canonical (it
is the normalizer's own output on a reachable record) and its name is `""`;
encoding it and decoding through the Remote Config Client path succeeds but
returns name `"Unnamed Model"` — drift in a field that is neither a
timestamp nor the id, so the round-trip is not the identity on all
canonical Models. -/
theorem models_roundtrip_name_drift :
    normalizeModel (.obj [("name", .arr [])]) 0 "T0" = .ok driftModel ∧
    driftModel.name = "" ∧
    parseConfigFile (encodeModels [driftModel]) "models.json" "T0" =
      .ok [{ driftModel with name := "Unnamed Model" }] :=
  ⟨rfl, rfl, by rfl⟩

/-- A concrete canonical Model exercising both optional groups. -/
def rtModel : Model :=
  ⟨"m-1", "Classifier", "2.0.0", "", "PyTorch", .production, "ml-team",
    "2024-01-01T00:00:00Z", "2024-06-01T00:00:00Z",
    some ⟨some ⟨95, 2⟩, some ⟨12, 0⟩⟩,
    some ⟨some "docs/card.md", none, none, none, some "model.pt"⟩⟩

/-- Witness for C9 at a concrete canonical model. -/
theorem models_roundtrip_witness :
    isYamlPath "cfg/models.json" = false ∧
    (∀ m ∈ [rtModel], goodModelB m = true) ∧
    parseConfigFile (encodeModels [rtModel]) "cfg/models.json" "NOW" =
      .ok [rtModel] :=
  ⟨by decide, by decide, models_roundtrip [rtModel] "cfg/models.json" "NOW"
    (by decide) (by decide)⟩
